import Mathlib

/-!
Verification development for the kitty-tab-switcher repository.

The Python sources (src/tab_switcher.py, src/preview_gen.py) are shallowly
embedded below:

* Python byte streams are `List Nat` (one entry per byte read); a read from an
  exhausted list models EOF or an expired read timeout.
* Python `str` values are `List Char`; `str` cells produced by the ANSI parser
  keep the `String` type because a cell glyph may be the empty string.
* Python `int` is `Int` (arbitrary precision, two's-complement bitwise ops via
  `Int.land`); `%` on `Int` in Lean matches Python `%` (sign of the divisor).
* Python `float` timestamps and scores are modeled as exact rationals `ℚ`.
  The two float threshold comparisons in preview_gen.py
  (`filled / max(total, 1) >= 0.2` and `colored / max(filled, 1) >= 0.35`)
  are embedded by exact cross-multiplication over `Nat`; for the integer
  counts that arise from terminal grids the double-precision comparison and
  the exact rational comparison agree (the nearest fraction with a feasible
  denominator is farther from the threshold than the float rounding error).
* A Python function that can raise is embedded as `Except String` (the error
  string names the Python exception class); functions that return
  `T | None` produce `Option`.
* Python `sorted` (a stable sort) is modeled with `List.insertionSort`, which
  is also stable; the sort keys used below are antisymmetric on the inputs we
  reason about, so the sorted result is the unique sorted permutation.
-/

set_option maxRecDepth 4000

/-- Predicate for ASCII decimal digit characters, as used by Python `int` and
`str.isdigit` on the ASCII inputs occurring here. -/
def isDigitChar (c : Char) : Bool := 48 ≤ c.toNat && c.toNat ≤ 57

/-- Numeric value of a list of decimal digit characters (most significant
first), the value Python `int` computes on a plain digit string. -/
def digitsVal (l : List Char) : Int :=
  l.foldl (fun a c => 10 * a + ((c.toNat - 48 : Nat) : Int)) 0

/-- Characters stripped by Python `str.strip` (ASCII whitespace). -/
def pyWs (c : Char) : Bool :=
  c = ' ' || c = '\t' || c = '\n' || c = '\r' || c = '\x0b' || c = '\x0c'

/-- Model of Python `str.strip()`. -/
def pyStrip (l : List Char) : List Char :=
  ((l.dropWhile pyWs).reverse.dropWhile pyWs).reverse

/-- Model of the Python builtin `int(s)` on a string: optional surrounding
whitespace, an optional sign, then a nonempty run of decimal digits; any other
shape raises ValueError, modeled as `none`. (Underscore digit grouping is not
modeled; no input considered in this development contains an underscore.) -/
def pyInt (l : List Char) : Option Int :=
  let t := pyStrip l
  let core := fun (ds : List Char) (neg : Bool) =>
    if ds ≠ [] ∧ ds.all isDigitChar then
      some (if neg then -(digitsVal ds) else digitsVal ds)
    else none
  if t.head? = some '+' then core t.tail false
  else if t.head? = some '-' then core t.tail true
  else core t false

/-- Model of Python `s.split(sep)` for a one-character separator: the result
is always nonempty and empty fields are kept, exactly as in Python. -/
def splitList (sep : Char) : List Char → List (List Char)
  | [] => [[]]
  | c :: rest =>
    let r := splitList sep rest
    if c = sep then [] :: r
    else
      match r with
      | [] => [[c]]
      | h :: t => (c :: h) :: t

/-- Model of Python `s.split(sep, 1)` for the case where `sep` occurs in `s`:
the part before the first separator and everything after it. -/
def splitOnce (sep : Char) : List Char → List Char × List Char
  | [] => ([], [])
  | c :: rest =>
    if c = sep then ([], rest)
    else
      let p := splitOnce sep rest
      (c :: p.1, p.2)

/-- Model of Python `bytes.decode("ascii", "ignore")`: bytes below 128 become
the corresponding character, all others are dropped. -/
def asciiIgnore (bs : List Nat) : List Char :=
  (bs.filter (· < 128)).map Char.ofNat

/-! Key decoder (src/tab_switcher.py lines 945-1023). -/

/-- Key event record from src/tab_switcher.py: `KeyEvent(key_code, mods=1,
event_type=1)`. -/
structure KeyEvent where
  key_code : Int
  mods : Int
  event_type : Int
deriving DecidableEq

/-- Property `KeyEvent.shift`: `bool((self.mods - 1) & 1)`. -/
def KeyEvent.shift (ev : KeyEvent) : Bool := Int.land (ev.mods - 1) 1 ≠ 0

/-- Property `KeyEvent.ctrl`: `bool((self.mods - 1) & 4)`. -/
def KeyEvent.ctrl (ev : KeyEvent) : Bool := Int.land (ev.mods - 1) 4 ≠ 0

/-- Constant TAB_CODE = 9 from src/tab_switcher.py. -/
def TAB_CODE : Int := 9

/-- Constant ESC_CODE = 27 from src/tab_switcher.py. -/
def ESC_CODE : Int := 27

/-- Constant MARKER_KEY_CODE = 57387 (f24) from src/tab_switcher.py. -/
def MARKER_KEY_CODE : Int := 57387

/-- Constant CTRL_KEY_CODES = {57442, 57448} from src/tab_switcher.py. -/
def CTRL_KEY_CODES : List Int := [57442, 57448]

/-- The CSI buffer loop of `read_key`: starting from `buf` (initially
`ESC [`), append bytes until a final byte in `[0x40, 0x7e]` arrives, the
buffer exceeds 64 bytes, or the source is exhausted (EOF/timeout). -/
def readSeq (buf : List Nat) : List Nat → List Nat
  | [] => buf
  | ch :: rest =>
    if 0x40 ≤ ch ∧ ch ≤ 0x7e then buf ++ [ch]
    else if 64 < (buf ++ [ch]).length then buf ++ [ch]
    else readSeq (buf ++ [ch]) rest

/-- Embedding of `parse_csi_u(buf)` from src/tab_switcher.py lines 1003-1023.
The `int(...)` calls are not inside the function's try/except (which only
covers the ascii decode), so a non-numeric field raises ValueError, modeled
as `Except.error`. -/
def parse_csi_u (buf : List Nat) : Except String (Option KeyEvent) :=
  let payload := asciiIgnore ((buf.drop 2).dropLast)
  if payload = [] then .ok none
  else
    let parts := splitList ';' payload
    let key_field := parts.headD []
    let k0 := (splitList ':' key_field).headD []
    match (if k0 = [] then some 0 else pyInt k0) with
    | none => .error "ValueError"
    | some key_code =>
      match parts.drop 1 with
      | [] => .ok (some ⟨key_code, 1, 1⟩)
      | mod_field :: _ =>
        if mod_field = [] then .ok (some ⟨key_code, 1, 1⟩)
        else if mod_field.contains ':' then
          let p := splitOnce ':' mod_field
          match (if p.1 = [] then some 1 else pyInt p.1),
                (if p.2 = [] then some 1 else pyInt p.2) with
          | some m, some e => .ok (some ⟨key_code, m, e⟩)
          | _, _ => .error "ValueError"
        else
          match pyInt mod_field with
          | some m => .ok (some ⟨key_code, m, 1⟩)
          | none => .error "ValueError"

/-- Dispatch on the accumulated CSI buffer, the tail of `read_key` after the
buffer loop (src/tab_switcher.py lines 983-1000): suffix Z is shift-Tab,
suffix I is Tab, a tilde form with parameter 9 is Tab and 24 the marker key,
a u suffix goes to `parse_csi_u`, anything else degrades to bare Escape. -/
def csiDispatch (buf : List Nat) : Except String (Option KeyEvent) :=
  if buf.getLast? = some 90 then .ok (some ⟨-TAB_CODE, 2, 1⟩)
  else if buf.getLast? = some 73 then .ok (some ⟨TAB_CODE, 1, 1⟩)
  else
    let tildeHit :=
      if buf.getLast? = some 126 then
        let params := pyStrip (asciiIgnore ((buf.drop 2).dropLast))
        if params = ['9'] then some (⟨TAB_CODE, 1, 1⟩ : KeyEvent)
        else if params = ['2', '4'] then some ⟨MARKER_KEY_CODE, 1, 1⟩
        else none
      else none
    match tildeHit with
    | some ev => .ok (some ev)
    | none =>
      if buf.getLast? ≠ some 117 then .ok (some ⟨ESC_CODE, 1, 1⟩)
      else parse_csi_u buf

/-- Embedding of `read_key(fd)` from src/tab_switcher.py lines 945-1000.
The byte source is the list of bytes successive reads return; an empty
remainder models EOF or a timed-out continuation read. -/
def read_key : List Nat → Except String (Option KeyEvent)
  | [] => .ok none
  | first :: rest =>
    if first = 9 then .ok (some ⟨TAB_CODE, 1, 1⟩)
    else if first ≠ 27 then .ok (some ⟨(first : Int), 1, 1⟩)
    else
      match rest with
      | [] => .ok (some ⟨ESC_CODE, 1, 1⟩)
      | nxt :: rest2 =>
        if nxt ≠ 91 then .ok (some ⟨ESC_CODE, 1, 1⟩)
        else csiDispatch (readSeq [27, 91] rest2)

/-- Embedding of `ctrl_is_down(mods, ctrl_mask)` from src/tab_switcher.py
lines 1347-1353. -/
def ctrl_is_down (mods ctrl_mask : Int) : Bool :=
  if Int.land mods ctrl_mask ≠ 0 then true
  else if 0 < mods ∧ Int.land (mods - 1) 4 ≠ 0 then true
  else false

theorem ldiff_four_zero : Nat.ldiff 4 0 = 4 := by
  unfold Nat.ldiff
  rw [Nat.bitwise_zero_right]
  rfl

theorem land_neg_one_four : Int.land (-1) 4 = 4 := by
  show Int.land (Int.negSucc 0) (Int.ofNat 4) = 4
  unfold Int.land
  show ((Nat.ldiff 4 0 : Nat) : Int) = 4
  rw [ldiff_four_zero]
  rfl

/-- C9 counterexample: the claim quantifies over every non-negative `mods`,
but at `mods = 0` the claimed formula is satisfied (Python evaluates
`(0 - 1) & 4 = -1 & 4 = 4`, which is non-zero) while `ctrl_is_down 0 4`
returns false, because the code additionally requires `mods > 0`. -/
theorem ctrl_is_down_claim_false_at_zero :
    ctrl_is_down 0 4 = false ∧ (Int.land 0 4 ≠ 0 ∨ Int.land (0 - 1) 4 ≠ 0) := by
  refine ⟨by decide, Or.inr ?_⟩
  show Int.land (-1) 4 ≠ 0
  rw [land_neg_one_four]
  decide

/-- C9 (amended): for every `mods` and `mask`, `ctrl_is_down` returns true
exactly when `mods & mask` is non-zero OR (`mods > 0` and `(mods - 1) & 4` is
non-zero); in particular it is true for `mods = 5, mask = 4` and false for
`mods = 1, mask = 4`. -/
theorem ctrl_is_down_spec :
    (∀ mods mask : Int,
      ctrl_is_down mods mask = true ↔
        (Int.land mods mask ≠ 0 ∨ (0 < mods ∧ Int.land (mods - 1) 4 ≠ 0))) ∧
    ctrl_is_down 5 4 = true ∧ ctrl_is_down 1 4 = false := by
  refine ⟨?_, by decide, by decide⟩
  intro mods mask
  unfold ctrl_is_down
  split
  · simp_all
  · split
    · simp_all
    · simp_all

/-! Claim C1 / C2: decoder theorems. -/

/-- C1 (code bug): the decoder is claimed never to raise, but on the byte
stream ESC [ ! u the unguarded `int(...)` in `parse_csi_u` raises ValueError
(the try/except there only covers the ascii decode). The embedding evaluates
the decoder at that stream to the raised exception. -/
theorem read_key_raises_on_nonnumeric_csi_u :
    read_key [27, 91, 33, 117] = .error "ValueError" := rfl

theorem digit_not_ws {c : Char} (h : isDigitChar c = true) : pyWs c = false := by
  by_contra hw
  rw [Bool.not_eq_false] at hw
  have hc : ((((c = ' ' ∨ c = '\t') ∨ c = '\n') ∨ c = '\r') ∨ c = '\x0b') ∨ c = '\x0c' := by
    unfold pyWs at hw
    simpa using hw
  rcases hc with ((((rfl | rfl) | rfl) | rfl) | rfl) | rfl <;> exact absurd h (by decide)

theorem dropWhile_eq_self_of_forall {α : Type} {p : α → Bool} {l : List α}
    (h : ∀ c ∈ l, p c = false) : l.dropWhile p = l := by
  cases l with
  | nil => rfl
  | cons a t => simp [List.dropWhile_cons, h a (List.mem_cons_self a t)]

theorem pyStrip_eq_self {l : List Char} (h : ∀ c ∈ l, pyWs c = false) :
    pyStrip l = l := by
  unfold pyStrip
  rw [dropWhile_eq_self_of_forall h, dropWhile_eq_self_of_forall, List.reverse_reverse]
  intro c hc
  exact h c (by simpa using hc)

theorem pyInt_digits {ds : List Char} (hne : ds ≠ []) (hd : ds.all isDigitChar = true) :
    pyInt ds = some (digitsVal ds) := by
  rw [List.all_eq_true] at hd
  have hstrip : pyStrip ds = ds :=
    pyStrip_eq_self (fun c hc => digit_not_ws (hd c hc))
  unfold pyInt
  simp only [hstrip]
  cases ds with
  | nil => exact absurd rfl hne
  | cons a t =>
    have ha : isDigitChar a = true := hd a (List.mem_cons_self a t)
    have hap : a ≠ '+' := by rintro rfl; exact absurd ha (by decide)
    have ham : a ≠ '-' := by rintro rfl; exact absurd ha (by decide)
    simp only [List.head?_cons]
    rw [if_neg (by simp [hap]), if_neg (by simp [ham]),
      if_pos ⟨by simp, List.all_eq_true.mpr hd⟩]
    simp

theorem readSeq_spec (mid : List Nat) : ∀ (buf : List Nat), (∀ b ∈ mid, b < 64) →
    buf.length + mid.length ≤ 64 → ∀ fin rest, 64 ≤ fin → fin ≤ 126 →
    readSeq buf (mid ++ fin :: rest) = buf ++ mid ++ [fin] := by
  induction mid with
  | nil =>
    intro buf _ _ fin rest h1 h2
    simp only [List.nil_append, readSeq]
    rw [if_pos ⟨h1, by omega⟩]
    simp
  | cons b mid ih =>
    intro buf hlt hlen fin rest h1 h2
    have hb : b < 64 := hlt b (List.mem_cons_self b mid)
    have hlen2 : buf.length + mid.length + 1 ≤ 64 := by
      simp only [List.length_cons] at hlen; omega
    simp only [List.cons_append, readSeq, List.append_eq]
    rw [if_neg (by rintro ⟨h64, _⟩; omega),
      if_neg (by simp only [List.length_append, List.length_cons, List.length_nil]; omega)]
    rw [ih (buf ++ [b]) (fun x hx => hlt x (List.mem_cons_of_mem b hx))
        (by simp only [List.length_append, List.length_cons, List.length_nil]; omega) fin rest h1 h2]
    simp

theorem contains_false_of {l : List Char} {sep : Char} (h : ∀ c ∈ l, c ≠ sep) :
    l.contains sep = false := by
  by_contra hc
  rw [Bool.not_eq_false, List.contains_iff_exists_mem_beq] at hc
  obtain ⟨x, hx, hbeq⟩ := hc
  exact h x hx (eq_of_beq hbeq).symm

theorem contains_true_of {l1 l2 : List Char} {sep : Char} :
    (l1 ++ sep :: l2).contains sep = true := by
  rw [List.contains_iff_exists_mem_beq]
  exact ⟨sep, by simp, by simp⟩

theorem splitList_no_sep {sep : Char} : ∀ {l : List Char}, (∀ c ∈ l, c ≠ sep) →
    splitList sep l = [l] := by
  intro l
  induction l with
  | nil => intro _; rfl
  | cons c t ih =>
    intro h
    simp only [splitList]
    rw [if_neg (h c (List.mem_cons_self c t)), ih (fun x hx => h x (List.mem_cons_of_mem c hx))]

theorem splitList_append_sep {sep : Char} : ∀ {a b : List Char}, (∀ c ∈ a, c ≠ sep) →
    splitList sep (a ++ sep :: b) = a :: splitList sep b := by
  intro a
  induction a with
  | nil =>
    intro b _
    simp [splitList]
  | cons c t ih =>
    intro b h
    simp only [List.cons_append, splitList, List.append_eq]
    rw [if_neg (h c (List.mem_cons_self c t)), ih (fun x hx => h x (List.mem_cons_of_mem c hx))]

theorem splitOnce_spec {sep : Char} : ∀ {a b : List Char}, (∀ c ∈ a, c ≠ sep) →
    splitOnce sep (a ++ sep :: b) = (a, b) := by
  intro a
  induction a with
  | nil =>
    intro b _
    simp [splitOnce]
  | cons c t ih =>
    intro b h
    simp only [List.cons_append, splitOnce, List.append_eq]
    rw [if_neg (h c (List.mem_cons_self c t)), ih (fun x hx => h x (List.mem_cons_of_mem c hx))]

theorem asciiIgnore_map {l : List Char} (h : ∀ c ∈ l, c.toNat < 128) :
    asciiIgnore (l.map Char.toNat) = l := by
  unfold asciiIgnore
  rw [List.filter_map]
  have hf : (l.filter (fun c => decide (c.toNat < 128))) = l :=
    List.filter_eq_self.mpr (fun c hc => by simpa using h c hc)
  have hcomp : ((fun b => decide (b < 128)) ∘ Char.toNat) = fun c => decide (c.toNat < 128) :=
    funext (fun c => rfl)
  rw [hcomp, hf, List.map_map]
  have hid : (Char.ofNat ∘ Char.toNat) = @id Char := funext (fun c => Char.ofNat_toNat c)
  rw [hid, List.map_id]

/-- Key field of a structured CSI-u payload: `key[:alt]`. -/
def csiuKeyField (key : List Char) (alt : Option (List Char)) : List Char :=
  key ++ (match alt with | none => [] | some a => ':' :: a)

/-- Full payload of a structured CSI-u sequence: `key[:alt][;mods[:event]]`. -/
def csiuPayload (key : List Char) (alt : Option (List Char))
    (modsEv : Option (List Char × Option (List Char))) : List Char :=
  csiuKeyField key alt ++
    (match modsEv with
     | none => []
     | some (m, none) => ';' :: m
     | some (m, some e) => ';' :: (m ++ ':' :: e))

theorem digit_toNat_lt_64 {c : Char} (h : isDigitChar c = true) : c.toNat < 64 := by
  unfold isDigitChar at h
  simp only [Bool.and_eq_true, decide_eq_true_eq] at h
  omega

theorem digit_ne_semi {c : Char} (h : isDigitChar c = true) : c ≠ ';' := by
  rintro rfl
  exact absurd h (by decide)

theorem digit_ne_colon {c : Char} (h : isDigitChar c = true) : c ≠ ':' := by
  rintro rfl
  exact absurd h (by decide)

theorem read_key_reaches_parse (pb : List Nat) (hlt : ∀ b ∈ pb, b < 64)
    (hlen : pb.length ≤ 62) :
    read_key (27 :: 91 :: (pb ++ [117])) = parse_csi_u ([27, 91] ++ pb ++ [117]) := by
  have h1 : read_key (27 :: 91 :: (pb ++ [117])) = csiDispatch (readSeq [27, 91] (pb ++ [117])) := rfl
  have h2 : readSeq [27, 91] (pb ++ [117]) = [27, 91] ++ pb ++ [117] := by
    have := readSeq_spec pb [27, 91] hlt (by simp; omega) 117 [] (by norm_num) (by norm_num)
    simpa [List.append_assoc] using this
  rw [h1, h2]
  unfold csiDispatch
  have hlast : ([27, 91] ++ pb ++ [117]).getLast? = some 117 := List.getLast?_concat _
  rw [hlast]
  simp

theorem parse_keyfield_headD (key : List Char) (alt : Option (List Char))
    (hkd : ∀ c ∈ key, isDigitChar c = true) :
    (splitList ':' (csiuKeyField key alt)).headD [] = key := by
  cases alt with
  | none =>
    simp only [csiuKeyField, List.append_nil]
    rw [splitList_no_sep (fun c hc => digit_ne_colon (hkd c hc))]
    rfl
  | some a =>
    simp only [csiuKeyField]
    rw [splitList_append_sep (fun c hc => digit_ne_colon (hkd c hc))]
    rfl

theorem keyField_no_semi (key : List Char) (alt : Option (List Char))
    (hkd : ∀ c ∈ key, isDigitChar c = true)
    (had : ∀ a, alt = some a → ∀ c ∈ a, isDigitChar c = true) :
    ∀ c ∈ csiuKeyField key alt, c ≠ ';' := by
  intro c hc
  cases alt with
  | none =>
    simp only [csiuKeyField, List.append_nil] at hc
    exact digit_ne_semi (hkd c hc)
  | some a =>
    simp only [csiuKeyField] at hc
    rcases List.mem_append.mp hc with h | h
    · exact digit_ne_semi (hkd c h)
    · rcases List.mem_cons.mp h with rfl | h
      · decide
      · exact digit_ne_semi (had a rfl c h)

/-- C2 (amended): for every valid structured key-report sequence
ESC [ key[:alt][;mods[:event]] u whose parameter payload fits the decoder's
64-byte buffer (payload at most 62 bytes), the decoder returns the KeyEvent
whose (code, mods, eventType) triple equals the encoded fields, omitted
optional fields defaulting to mods = 1 and eventType = 1. -/
theorem read_key_decodes_csi_u (key : List Char) (alt : Option (List Char))
    (modsEv : Option (List Char × Option (List Char)))
    (hkey : key ≠ [])
    (hkd : ∀ c ∈ key, isDigitChar c = true)
    (had : ∀ a, alt = some a → ∀ c ∈ a, isDigitChar c = true)
    (hmd : ∀ m me, modsEv = some (m, me) → m ≠ [] ∧ ∀ c ∈ m, isDigitChar c = true)
    (hed : ∀ m e, modsEv = some (m, some e) → e ≠ [] ∧ ∀ c ∈ e, isDigitChar c = true)
    (hlen : (csiuPayload key alt modsEv).length ≤ 62) :
    read_key (27 :: 91 :: ((csiuPayload key alt modsEv).map Char.toNat ++ [117])) =
      .ok (some ⟨digitsVal key,
        (match modsEv with | none => 1 | some (m, _) => digitsVal m),
        (match modsEv with | some (_, some e) => digitsVal e | _ => 1)⟩) := by
  have hpayd : ∀ c ∈ csiuPayload key alt modsEv, c.toNat < 64 := by
    intro c hc
    unfold csiuPayload csiuKeyField at hc
    have hcolon : (':').toNat < 64 := by decide
    have hsemi : (';').toNat < 64 := by decide
    rcases List.mem_append.mp hc with h | h
    · rcases List.mem_append.mp h with h | h
      · exact digit_toNat_lt_64 (hkd c h)
      · cases alt with
        | none => simp at h
        | some a =>
          rcases List.mem_cons.mp h with rfl | h
          · exact hcolon
          · exact digit_toNat_lt_64 (had a rfl c h)
    · cases modsEv with
      | none => simp at h
      | some p =>
        rcases p with ⟨m, me⟩
        cases me with
        | none =>
          rcases List.mem_cons.mp h with rfl | h
          · exact hsemi
          · exact digit_toNat_lt_64 ((hmd m none rfl).2 c h)
        | some e =>
          rcases List.mem_cons.mp h with rfl | h
          · exact hsemi
          · rcases List.mem_append.mp h with h | h
            · exact digit_toNat_lt_64 ((hmd m (some e) rfl).2 c h)
            · rcases List.mem_cons.mp h with rfl | h
              · exact hcolon
              · exact digit_toNat_lt_64 ((hed m e rfl).2 c h)
  have hpb : ∀ b ∈ (csiuPayload key alt modsEv).map Char.toNat, b < 64 := by
    intro b hb
    rcases List.mem_map.mp hb with ⟨c, hc, rfl⟩
    exact hpayd c hc
  rw [read_key_reaches_parse _ hpb (by simpa using hlen)]
  have hdrop : (([27, 91] ++ (csiuPayload key alt modsEv).map Char.toNat ++ [117]).drop 2).dropLast
      = (csiuPayload key alt modsEv).map Char.toNat := by
    rw [List.append_assoc]
    rw [show ([27, 91] ++ ((csiuPayload key alt modsEv).map Char.toNat ++ [117]))
        = (27 : Nat) :: 91 :: ((csiuPayload key alt modsEv).map Char.toNat ++ [117]) from rfl]
    rw [show ((27 : Nat) :: 91 :: ((csiuPayload key alt modsEv).map Char.toNat ++ [117])).drop 2
        = (csiuPayload key alt modsEv).map Char.toNat ++ [117] from rfl]
    exact List.dropLast_concat
  have hascii : asciiIgnore ((csiuPayload key alt modsEv).map Char.toNat)
      = csiuPayload key alt modsEv :=
    asciiIgnore_map (fun c hc => lt_trans (hpayd c hc) (by norm_num))
  have hne : csiuPayload key alt modsEv ≠ [] := by
    unfold csiuPayload csiuKeyField
    cases key with
    | nil => exact absurd rfl hkey
    | cons a t => simp
  have hkfsemi : ∀ c ∈ csiuKeyField key alt, c ≠ ';' := keyField_no_semi key alt hkd had
  have hpykey : pyInt key = some (digitsVal key) := by
    refine pyInt_digits hkey (List.all_eq_true.mpr hkd)
  simp only [parse_csi_u, hdrop, hascii, if_neg hne]
  cases modsEv with
  | none =>
    have hsplit : splitList ';' (csiuPayload key alt none) = [csiuKeyField key alt] := by
      simp only [csiuPayload, List.append_nil]
      exact splitList_no_sep hkfsemi
    simp only [hsplit, List.headD_cons, List.drop_succ_cons, List.drop_nil, List.drop_zero,
      parse_keyfield_headD key alt hkd, if_neg hkey, hpykey]
  | some p =>
    rcases p with ⟨m, me⟩
    cases me with
    | none =>
      obtain ⟨hmne, hmdig⟩ := hmd m none rfl
      have hsplit : splitList ';' (csiuPayload key alt (some (m, none)))
          = [csiuKeyField key alt, m] := by
        simp only [csiuPayload]
        rw [splitList_append_sep hkfsemi,
          splitList_no_sep (fun c hc => digit_ne_semi (hmdig c hc))]
      have hnocolon : m.contains ':' = false :=
        contains_false_of (fun c hc => digit_ne_colon (hmdig c hc))
      have hpym : pyInt m = some (digitsVal m) :=
        pyInt_digits hmne (List.all_eq_true.mpr hmdig)
      simp only [hsplit, List.headD_cons, List.drop_succ_cons, List.drop_nil, List.drop_zero,
        parse_keyfield_headD key alt hkd, if_neg hkey, hpykey, if_neg hmne,
        hnocolon, hpym, Bool.false_eq_true, if_false]
    | some e =>
      obtain ⟨hmne, hmdig⟩ := hmd m (some e) rfl
      obtain ⟨hene, hedig⟩ := hed m e rfl
      have hmodne : m ++ ':' :: e ≠ [] := by
        cases m <;> simp
      have hsplit : splitList ';' (csiuPayload key alt (some (m, some e)))
          = [csiuKeyField key alt, m ++ ':' :: e] := by
        simp only [csiuPayload]
        rw [splitList_append_sep hkfsemi]
        rw [splitList_no_sep]
        intro c hc
        rcases List.mem_append.mp hc with h | h
        · exact digit_ne_semi (hmdig c h)
        · rcases List.mem_cons.mp h with rfl | h
          · decide
          · exact digit_ne_semi (hedig c h)
      have hcol : (m ++ ':' :: e).contains ':' = true := contains_true_of
      have hsp : splitOnce ':' (m ++ ':' :: e) = (m, e) :=
        splitOnce_spec (fun c hc => digit_ne_colon (hmdig c hc))
      have hpym : pyInt m = some (digitsVal m) :=
        pyInt_digits hmne (List.all_eq_true.mpr hmdig)
      have hpye : pyInt e = some (digitsVal e) :=
        pyInt_digits hene (List.all_eq_true.mpr hedig)
      simp only [hsplit, List.headD_cons, List.drop_succ_cons, List.drop_nil, List.drop_zero,
        parse_keyfield_headD key alt hkd, if_neg hkey, hpykey, if_neg hmodne,
        hcol, if_true, hsp, if_neg hmne, if_neg hene, hpym, hpye]

/-- Witness for the CSI-u decoding theorem at the concrete sequence
ESC [ 9 7 : 6 5 ; 5 : 2 u, which decodes to key 97, mods 5, event type 2. -/
theorem read_key_decodes_csi_u_witness :
    read_key (27 :: 91 :: ((csiuPayload ['9', '7'] (some ['6', '5'])
        (some (['5'], some ['2']))).map Char.toNat ++ [117])) =
      .ok (some ⟨97, 5, 2⟩) :=
  read_key_decodes_csi_u ['9', '7'] (some ['6', '5']) (some (['5'], some ['2']))
    (by decide) (by decide)
    (by intro a ha; cases ha; decide)
    (by intro m me h; cases h; exact ⟨by decide, by decide⟩)
    (by intro m e h; cases h; exact ⟨by decide, by decide⟩)
    (by decide)

/-! Modifier-oracle commit path (src/tab_switcher.py lines 283-296). -/

/-- State of the oracle commit path, fields `poll_ctrl_seen`,
`ctrl_up_streak` and `ctrl_down` of RawSwitcher. -/
structure PollState where
  poll_ctrl_seen : Bool
  ctrl_up_streak : Nat
  ctrl_down : Bool
deriving DecidableEq

/-- Initial oracle-path state from RawSwitcher.__init__ (poll_ctrl_seen
False, ctrl_up_streak 0, ctrl_down False). -/
def initPollState : PollState := ⟨false, 0, false⟩

/-- One idle tick of the oracle commit path (src/tab_switcher.py lines
283-296): the observation is the polled modifier state after `ctrl_is_down`
(`none` when the oracle returned None/unknown). Returns the updated state and
whether this tick commits via the oracle path. These three fields are touched
nowhere else in the event loop, so the sub-automaton is closed. -/
def pollTick (s : PollState) (obs : Option Bool) : PollState × Bool :=
  match obs with
  | none => (s, false)
  | some true => ({ poll_ctrl_seen := true, ctrl_up_streak := 0, ctrl_down := true }, false)
  | some false =>
    let s2 : PollState := { s with ctrl_up_streak := s.ctrl_up_streak + 1 }
    (s2, s.poll_ctrl_seen && decide (2 ≤ s2.ctrl_up_streak))

/-- Run the oracle commit path over a trace of tick observations; the result
is the index of the first tick that commits via this path, if any. -/
def runPolls (s : PollState) : List (Option Bool) → Option Nat
  | [] => none
  | obs :: rest =>
    let r := pollTick s obs
    if r.2 then some 0
    else (runPolls r.1 rest).map (· + 1)

theorem runPolls_commit_decomp :
    ∀ (trace : List (Option Bool)) (s : PollState) (k : Nat),
    runPolls s trace = some k →
    (∃ a b, trace.take (k + 1) = a ++ some true :: b ∧ some true ∉ b ∧
       2 ≤ b.countP (· == some false)) ∨
    (s.poll_ctrl_seen = true ∧ (∀ o ∈ trace.take (k + 1), o ≠ some true) ∧
       2 ≤ s.ctrl_up_streak + (trace.take (k + 1)).countP (· == some false)) := by
  intro trace
  induction trace with
  | nil => intro s k h; simp [runPolls] at h
  | cons obs rest ih =>
    intro s k h
    match obs with
    | none =>
      have hstep : runPolls s (none :: rest) = (runPolls s rest).map (· + 1) := by
        simp [runPolls, pollTick]
      rw [hstep] at h
      rcases Option.map_eq_some'.mp h with ⟨k2, hk2, rfl⟩
      rcases ih s k2 hk2 with ⟨a, b, hab, hnb, hcnt⟩ | ⟨hseen, hno, hcnt⟩
      · left
        exact ⟨none :: a, b, by simp [List.take_succ_cons, hab], hnb, hcnt⟩
      · right
        refine ⟨hseen, ?_, ?_⟩
        · intro o ho
          rw [List.take_succ_cons] at ho
          rcases List.mem_cons.mp ho with rfl | ho
          · simp
          · exact hno o ho
        · rw [List.take_succ_cons, List.countP_cons]
          simpa using hcnt
    | some true =>
      have hstep : runPolls s (some true :: rest)
          = (runPolls ⟨true, 0, true⟩ rest).map (· + 1) := by
        simp [runPolls, pollTick]
      rw [hstep] at h
      rcases Option.map_eq_some'.mp h with ⟨k2, hk2, rfl⟩
      rcases ih _ k2 hk2 with ⟨a, b, hab, hnb, hcnt⟩ | ⟨_, hno, hcnt⟩
      · left
        exact ⟨some true :: a, b, by simp [List.take_succ_cons, hab], hnb, hcnt⟩
      · left
        refine ⟨[], rest.take (k2 + 1), by simp [List.take_succ_cons], ?_, by simpa using hcnt⟩
        intro hmem
        exact (hno _ hmem) rfl
    | some false =>
      have hstep : runPolls s (some false :: rest)
          = if (s.poll_ctrl_seen && decide (2 ≤ s.ctrl_up_streak + 1)) then some 0
            else (runPolls { s with ctrl_up_streak := s.ctrl_up_streak + 1 } rest).map (· + 1) := by
        simp [runPolls, pollTick]
      rw [hstep] at h
      by_cases hc : (s.poll_ctrl_seen && decide (2 ≤ s.ctrl_up_streak + 1)) = true
      · rw [if_pos hc] at h
        have hk : k = 0 := (Option.some_inj.mp h).symm
        subst hk
        obtain ⟨hseen, hstreak⟩ :
            s.poll_ctrl_seen = true ∧ 2 ≤ s.ctrl_up_streak + 1 := by simpa using hc
        right
        refine ⟨hseen, ?_, ?_⟩
        · intro o ho
          simp only [List.take_succ_cons, List.take_zero] at ho
          rcases List.mem_cons.mp ho with rfl | ho
          · simp
          · simp at ho
        · simp only [List.take_succ_cons, List.take_zero, List.countP_cons, List.countP_nil]
          simp only [beq_self_eq_true, if_pos]
          omega
      · rw [if_neg hc] at h
        rcases Option.map_eq_some'.mp h with ⟨k2, hk2, rfl⟩
        rcases ih _ k2 hk2 with ⟨a, b, hab, hnb, hcnt⟩ | ⟨hseen, hno, hcnt⟩
        · left
          exact ⟨some false :: a, b, by simp [List.take_succ_cons, hab], hnb, hcnt⟩
        · right
          refine ⟨hseen, ?_, ?_⟩
          · intro o ho
            rw [List.take_succ_cons] at ho
            rcases List.mem_cons.mp ho with rfl | ho
            · simp
            · exact hno o ho
          · rw [List.take_succ_cons, List.countP_cons]
            simp only at hcnt ⊢
            simp
            omega

/-- Trace used to refute the strict consecutive-tick reading of C3: held,
not-held, unknown, not-held. -/
def oracleTrace : List (Option Bool) := [some true, some false, none, some false]

/-- C3 counterexample: on the trace held, not-held, unknown, not-held the
oracle path commits (at tick 3), yet no two consecutive ticks both report
not-held: an unknown poll neither resets the streak nor counts as a tick
without a poll, so the two not-held reports need not be on consecutive
ticks. -/
theorem oracle_commit_not_consecutive :
    runPolls initPollState oracleTrace = some 3 ∧
    (∀ j, oracleTrace.get? j = some (some false) →
      oracleTrace.get? (j + 1) ≠ some (some false)) := by
  refine ⟨rfl, ?_⟩
  intro j hj
  match j with
  | 0 => simp [oracleTrace] at hj
  | 1 => intro h2; simp [oracleTrace] at h2
  | 2 => simp [oracleTrace] at hj
  | 3 => intro h2; simp [oracleTrace] at h2
  | n + 4 => simp [oracleTrace] at hj

/-- C3 (amended): a commit via the Modifier Oracle path happens only if the
oracle reported the modifier held on some earlier tick and afterwards
reported it not held on at least 2 polls with no intervening held report
(unknown polls may lie in between without resetting the count); in
particular, a not-held poll with no prior held observation never commits via
this path. -/
theorem oracle_commit_requires_held_then_two_not_held (trace : List (Option Bool)) :
    ((∀ o ∈ trace, o ≠ some true) → runPolls initPollState trace = none) ∧
    (∀ k, runPolls initPollState trace = some k →
      ∃ a b, trace.take (k + 1) = a ++ some true :: b ∧ some true ∉ b ∧
        2 ≤ b.countP (· == some false)) := by
  constructor
  · intro hno
    cases hrun : runPolls initPollState trace with
    | none => rfl
    | some k =>
      rcases runPolls_commit_decomp trace initPollState k hrun with
        ⟨a, b, hab, _, _⟩ | ⟨hseen, _, _⟩
      · have hmem : some true ∈ trace := by
          have h1 : some true ∈ trace.take (k + 1) := by rw [hab]; simp
          exact List.take_subset _ _ h1
        exact absurd rfl (hno _ hmem)
      · simp [initPollState] at hseen
  · intro k hrun
    rcases runPolls_commit_decomp trace initPollState k hrun with h | ⟨hseen, _, _⟩
    · exact h
    · simp [initPollState] at hseen

/-- Witness for the amended C3 theorem at the concrete trace held, not-held,
not-held, which commits at tick 2. -/
theorem oracle_commit_requires_held_witness :
    ∃ a b, ([some true, some false, some false] : List (Option Bool)).take (2 + 1)
        = a ++ some true :: b ∧ some true ∉ b ∧ 2 ≤ b.countP (· == some false) :=
  (oracle_commit_requires_held_then_two_not_held [some true, some false, some false]).2 2 rfl

/-! MRU reconciliation and commit rewrite (src/tab_switcher.py lines 675-717
and 802-812). -/

/-- Tab snapshot from src/tab_switcher.py (TabInfo): id, title, window id,
active flag and optional kitty-provided last-focused timestamp. -/
structure TabInfo where
  id : Int
  title : String
  window_id : Int
  is_active : Bool
  last_focused : Option ℚ
deriving DecidableEq

/-- Insertion-ordered association list modeling a Python dict (Python dicts
preserve insertion order; assignment to an existing key keeps its position). -/
abbrev PyDict (β : Type) : Type := List (Int × β)

/-- Model of Python `d[k] = v`: update in place if the key exists, else
append. -/
def pdSet {β : Type} (d : PyDict β) (k : Int) (v : β) : PyDict β :=
  match d with
  | [] => [(k, v)]
  | (k2, v2) :: rest => if k2 = k then (k, v) :: rest else (k2, v2) :: pdSet rest k v

/-- Model of Python `d[k]` / `d.get(k)`. -/
def pdGet {β : Type} (d : PyDict β) (k : Int) : Option β :=
  match d with
  | [] => none
  | (k2, v2) :: rest => if k2 = k then some v2 else pdGet rest k

/-- Model of Python `k in d`. -/
def pdContains {β : Type} (d : PyDict β) (k : Int) : Bool := (pdGet d k).isSome

/-- Model of Python `d.get(k, dflt)`. -/
def pdGetD {β : Type} (d : PyDict β) (k : Int) (dflt : β) : β := (pdGet d k).getD dflt

/-- Keys of a dict in insertion order (Python iteration order). -/
def pdKeys {β : Type} (d : PyDict β) : List Int := d.map Prod.fst

theorem pdGet_set_self {β : Type} (d : PyDict β) (k : Int) (v : β) :
    pdGet (pdSet d k v) k = some v := by
  induction d with
  | nil => simp [pdSet, pdGet]
  | cons h t ih =>
    rcases h with ⟨k2, v2⟩
    by_cases hk : k2 = k
    · simp [pdSet, pdGet, hk]
    · simp [pdSet, pdGet, hk, ih]

theorem pdGet_set_ne {β : Type} (d : PyDict β) {k k2 : Int} (v : β) (h : k2 ≠ k) :
    pdGet (pdSet d k v) k2 = pdGet d k2 := by
  induction d with
  | nil => simp [pdSet, pdGet, Ne.symm h]
  | cons hd t ih =>
    rcases hd with ⟨k3, v3⟩
    by_cases hk : k3 = k
    · subst hk
      simp [pdSet, pdGet, Ne.symm h, h]
    · by_cases hk2 : k3 = k2 <;> simp [pdSet, pdGet, hk, hk2, ih, h]

theorem pdKeys_set_mem {β : Type} (d : PyDict β) (k : Int) (v : β)
    (h : k ∈ pdKeys d) : pdKeys (pdSet d k v) = pdKeys d := by
  induction d with
  | nil => simp [pdKeys] at h
  | cons hd t ih =>
    rcases hd with ⟨k2, v2⟩
    by_cases hk : k2 = k
    · simp [pdSet, pdKeys, hk]
    · have h2 : k ∈ pdKeys t := by
        simp only [pdKeys, List.map_cons, List.mem_cons] at h
        rcases h with h | h
        · exact absurd h.symm hk
        · exact h
      have ih2 := ih h2
      simp only [pdSet, if_neg hk, pdKeys, List.map_cons]
      rw [show (pdSet t k v).map Prod.fst = pdKeys (pdSet t k v) from rfl, ih2]
      rfl

theorem pdKeys_set_not_mem {β : Type} (d : PyDict β) (k : Int) (v : β)
    (h : ¬ k ∈ pdKeys d) : pdKeys (pdSet d k v) = pdKeys d ++ [k] := by
  induction d with
  | nil => simp [pdSet, pdKeys]
  | cons hd t ih =>
    rcases hd with ⟨k2, v2⟩
    have hk : k2 ≠ k := by
      intro hkk
      exact h (by simp [pdKeys, hkk])
    have h2 : ¬ k ∈ pdKeys t := by
      intro hm
      exact h (by simp only [pdKeys, List.map_cons, List.mem_cons]; exact Or.inr hm)
    have ih2 := ih h2
    simp only [pdSet, if_neg hk, pdKeys, List.map_cons]
    rw [show (pdSet t k v).map Prod.fst = pdKeys (pdSet t k v) from rfl, ih2]
    rfl

theorem pdContains_iff_mem_keys {β : Type} (d : PyDict β) (k : Int) :
    pdContains d k = true ↔ k ∈ pdKeys d := by
  induction d with
  | nil => simp [pdContains, pdGet, pdKeys]
  | cons hd t ih =>
    rcases hd with ⟨k2, v2⟩
    by_cases hk : k2 = k
    · simp [pdContains, pdGet, pdKeys, hk]
    · simp only [pdContains, pdGet, if_neg hk, pdKeys, List.map_cons, List.mem_cons]
      rw [show (pdGet t k).isSome = pdContains t k from rfl, ih]
      simp [pdKeys, Ne.symm hk]

theorem pdGet_of_mem_nodup {β : Type} (d : PyDict β) (kv : Int × β)
    (hmem : kv ∈ d) (hnd : (pdKeys d).Nodup) : pdGet d kv.1 = some kv.2 := by
  induction d with
  | nil => simp at hmem
  | cons hd t ih =>
    rcases hd with ⟨k2, v2⟩
    rcases List.mem_cons.mp hmem with rfl | hmem2
    · simp [pdGet]
    · have hk2 : k2 ≠ kv.1 := by
        intro hkk
        have hmk : kv.1 ∈ pdKeys t := by
          simp only [pdKeys, List.mem_map]
          exact ⟨kv, hmem2, rfl⟩
        rw [pdKeys, List.map_cons] at hnd
        exact (List.nodup_cons.mp hnd).1 (hkk ▸ hmk)
      have hnd2 : (pdKeys t).Nodup := by
        rw [pdKeys, List.map_cons] at hnd
        exact (List.nodup_cons.mp hnd).2
      simp only [pdGet, if_neg hk2]
      exact ih hmem2 hnd2

theorem pdGet_foldl_set_not_mem {α : Type} {β : Type} (g : α → Int) (f : α → β) :
    ∀ (l : List α) (d : PyDict β) (k : Int), (∀ a ∈ l, g a ≠ k) →
    pdGet (l.foldl (fun d x => pdSet d (g x) (f x)) d) k = pdGet d k := by
  intro l
  induction l with
  | nil => intro d k _; rfl
  | cons x rest ih =>
    intro d k h
    simp only [List.foldl_cons]
    rw [ih _ k (fun a ha => h a (List.mem_cons_of_mem x ha)),
      pdGet_set_ne _ _ (Ne.symm (h x (List.mem_cons_self x rest)))]

theorem pdGet_foldl_set_mem {α : Type} {β : Type} (g : α → Int) (f : α → β) :
    ∀ (l : List α) (d : PyDict β) (a : α), a ∈ l → (l.map g).Nodup →
    pdGet (l.foldl (fun d x => pdSet d (g x) (f x)) d) (g a) = some (f a) := by
  intro l
  induction l with
  | nil => intro d a ha; simp at ha
  | cons x rest ih =>
    intro d a ha hnd
    simp only [List.map_cons, List.nodup_cons] at hnd
    simp only [List.foldl_cons]
    rcases List.mem_cons.mp ha with rfl | ha2
    · rw [pdGet_foldl_set_not_mem g f rest _ (g a)
        (fun y hy => fun he => hnd.1 (he ▸ List.mem_map_of_mem g hy))]
      exact pdGet_set_self _ _ _
    · exact ih _ a ha2 hnd.2

theorem pdKeys_foldl_set_fresh {α : Type} {β : Type} (g : α → Int) (f : α → β) :
    ∀ (l : List α) (d : PyDict β), (∀ a ∈ l, ¬ g a ∈ pdKeys d) → (l.map g).Nodup →
    pdKeys (l.foldl (fun d x => pdSet d (g x) (f x)) d) = pdKeys d ++ l.map g := by
  intro l
  induction l with
  | nil => intro d _ _; simp
  | cons x rest ih =>
    intro d h hnd
    simp only [List.map_cons, List.nodup_cons] at hnd
    simp only [List.foldl_cons]
    rw [ih (pdSet d (g x) (f x)) ?fresh hnd.2,
      pdKeys_set_not_mem d (g x) (f x) (h x (List.mem_cons_self x rest))]
    · simp
    case fresh =>
      intro a ha hmem
      rw [pdKeys_set_not_mem d (g x) (f x) (h x (List.mem_cons_self x rest))] at hmem
      rcases List.mem_append.mp hmem with hm | hm
      · exact h a (List.mem_cons_of_mem x ha) hm
      · simp only [List.mem_singleton] at hm
        exact hnd.1 (hm ▸ List.mem_map_of_mem g ha)

/-- Body of the persisted-map loop in `_reconcile_mru` (src/tab_switcher.py
lines 703-708): take the persisted score when present, then default the key
to 0 when it is still missing. -/
def reconcileStep (last_used : Int → Option ℚ) (d : PyDict ℚ) (tid : Int) : PyDict ℚ :=
  let d1 := if (last_used tid).isSome then pdSet d tid ((last_used tid).getD 0) else d
  if pdContains d1 tid then d1 else pdSet d1 tid 0

theorem reconcileStep_get_self (lu : Int → Option ℚ) (d : PyDict ℚ) (tid : Int)
    (h : pdContains d tid = false) :
    pdGet (reconcileStep lu d tid) tid = some ((lu tid).getD 0) := by
  unfold reconcileStep
  cases hlu : lu tid with
  | some v =>
    have hset : pdGet (pdSet d tid v) tid = some v := pdGet_set_self _ _ _
    simp only [hlu, Option.isSome_some, if_pos, Option.getD_some]
    rw [if_pos]
    · exact hset
    · simp [pdContains, hset]
  | none =>
    simp only [hlu, Option.isSome_none, Bool.false_eq_true, if_false, Option.getD_none]
    rw [if_neg (by simp [h])]
    exact pdGet_set_self _ _ _

theorem reconcileStep_get_ne (lu : Int → Option ℚ) (d : PyDict ℚ) (tid k : Int)
    (h : k ≠ tid) :
    pdGet (reconcileStep lu d tid) k = pdGet d k := by
  unfold reconcileStep
  cases hlu : lu tid with
  | some v =>
    simp only [hlu, Option.isSome_some, if_pos]
    split
    · exact pdGet_set_ne _ _ h
    · rw [pdGet_set_ne _ _ h, pdGet_set_ne _ _ h]
  | none =>
    simp only [hlu, Option.isSome_none, Bool.false_eq_true, if_false]
    split
    · rfl
    · exact pdGet_set_ne _ _ h

theorem reconcileStep_keys_fresh (lu : Int → Option ℚ) (d : PyDict ℚ) (tid : Int)
    (h : ¬ tid ∈ pdKeys d) :
    pdKeys (reconcileStep lu d tid) = pdKeys d ++ [tid] := by
  unfold reconcileStep
  cases hlu : lu tid with
  | some v =>
    have hset : pdGet (pdSet d tid v) tid = some v := pdGet_set_self _ _ _
    simp only [hlu, Option.isSome_some, if_pos]
    rw [if_pos (by simp [pdContains, hset])]
    exact pdKeys_set_not_mem _ _ _ h
  | none =>
    simp only [hlu, Option.isSome_none, Bool.false_eq_true, if_false]
    rw [if_neg (fun hc => h ((pdContains_iff_mem_keys d tid).mp hc))]
    exact pdKeys_set_not_mem _ _ _ h

theorem pdGet_foldl_reconcileStep_not_mem (lu : Int → Option ℚ) :
    ∀ (l : List Int) (d : PyDict ℚ) (k : Int), (∀ t ∈ l, t ≠ k) →
    pdGet (l.foldl (reconcileStep lu) d) k = pdGet d k := by
  intro l
  induction l with
  | nil => intro d k _; rfl
  | cons x rest ih =>
    intro d k h
    simp only [List.foldl_cons]
    rw [ih _ k (fun a ha => h a (List.mem_cons_of_mem x ha)),
      reconcileStep_get_ne lu d x k (Ne.symm (h x (List.mem_cons_self x rest)))]

theorem pdGet_foldl_reconcileStep_mem (lu : Int → Option ℚ) :
    ∀ (l : List Int) (d : PyDict ℚ) (k : Int), k ∈ l → l.Nodup →
    pdContains d k = false →
    pdGet (l.foldl (reconcileStep lu) d) k = some ((lu k).getD 0) := by
  intro l
  induction l with
  | nil => intro d k hk; simp at hk
  | cons x rest ih =>
    intro d k hk hnd hc
    simp only [List.nodup_cons] at hnd
    simp only [List.foldl_cons]
    rcases List.mem_cons.mp hk with rfl | hk2
    · rw [pdGet_foldl_reconcileStep_not_mem lu rest _ k
        (fun y hy => fun he => hnd.1 (he ▸ hy))]
      exact reconcileStep_get_self lu d k hc
    · refine ih _ k hk2 hnd.2 ?_
      have hx : k ≠ x := fun he => hnd.1 (he ▸ hk2)
      simp [pdContains, reconcileStep_get_ne lu d x k hx]
      simpa [pdContains] using hc

theorem pdKeys_foldl_reconcileStep_fresh (lu : Int → Option ℚ) :
    ∀ (l : List Int) (d : PyDict ℚ), (∀ t ∈ l, ¬ t ∈ pdKeys d) → l.Nodup →
    pdKeys (l.foldl (reconcileStep lu) d) = pdKeys d ++ l := by
  intro l
  induction l with
  | nil => intro d _ _; simp
  | cons x rest ih =>
    intro d h hnd
    simp only [List.nodup_cons] at hnd
    simp only [List.foldl_cons]
    rw [ih (reconcileStep lu d x) ?fresh hnd.2,
      reconcileStep_keys_fresh lu d x (h x (List.mem_cons_self x rest))]
    · simp
    case fresh =>
      intro a ha hmem
      rw [reconcileStep_keys_fresh lu d x (h x (List.mem_cons_self x rest))] at hmem
      rcases List.mem_append.mp hmem with hm | hm
      · exact h a (List.mem_cons_of_mem x ha) hm
      · simp only [List.mem_singleton] at hm
        exact hnd.1 (hm ▸ ha)

/-- Embedding of `RawSwitcher._active_tab_id` (src/tab_switcher.py 662-667):
the first tab flagged active, else the first tab, else None. -/
def activeTabId (tabs : List TabInfo) : Option Int :=
  match tabs.find? (fun t => t.is_active) with
  | some t => some t.id
  | none => tabs.head?.map (fun t => t.id)

/-- The dict comprehension `{tid: idx for idx, tid in enumerate(base_order)}`
from `_reconcile_mru`. -/
def buildRank (ids : List Int) : PyDict Nat :=
  ids.enum.foldl (fun d p => pdSet d p.2 p.1) []

/-- The dict comprehension `{t.id: t for t in base_tabs}` from
`_reconcile_mru`. -/
def buildById (tabs : List TabInfo) : PyDict TabInfo :=
  tabs.foldl (fun d t => pdSet d t.id t) []

/-- Sort key order of `_reconcile_mru`: ascending in the Python key tuple
`(-score, base_rank.get(tid, 10**9))`, written out lexicographically. -/
def mruLe (rk : PyDict Nat) (x y : Int × ℚ) : Prop :=
  y.2 < x.2 ∨ (x.2 = y.2 ∧ pdGetD rk x.1 (10 ^ 9) ≤ pdGetD rk y.1 (10 ^ 9))

instance mruLeDec (rk : PyDict Nat) : DecidableRel (mruLe rk) := fun x y => by
  unfold mruLe
  infer_instance

instance mruLeTotal (rk : PyDict Nat) : IsTotal (Int × ℚ) (mruLe rk) := by
  refine ⟨fun x y => ?_⟩
  unfold mruLe
  rcases lt_trichotomy x.2 y.2 with h | h | h
  · exact Or.inr (Or.inl h)
  · rcases le_total (pdGetD rk x.1 (10 ^ 9)) (pdGetD rk y.1 (10 ^ 9)) with h2 | h2
    · exact Or.inl (Or.inr ⟨h, h2⟩)
    · exact Or.inr (Or.inr ⟨h.symm, h2⟩)
  · exact Or.inl (Or.inl h)

instance mruLeTrans (rk : PyDict Nat) : IsTrans (Int × ℚ) (mruLe rk) := by
  refine ⟨fun a b c hab hbc => ?_⟩
  unfold mruLe at *
  rcases hab with h1 | ⟨h1, h1r⟩ <;> rcases hbc with h2 | ⟨h2, h2r⟩
  · exact Or.inl (lt_trans h2 h1)
  · exact Or.inl (h2 ▸ h1)
  · exact Or.inl (by rw [h1]; exact h2)
  · exact Or.inr ⟨h1.trans h2, le_trans h1r h2r⟩

/-- Embedding of `RawSwitcher._reconcile_mru` (src/tab_switcher.py lines
675-717). The persisted map is passed as its lookup function (the code only
reads it through membership tests and key lookups, so dict iteration order
cannot influence the result). Returns the reordered tab list (the assignment
to `self.tabs`) and the returned score dict. Python `sorted` (stable) is
modeled by the stable `List.insertionSort`; the branch-1 return value
`{tid: out[tid] for tid in base_order}` indexes keys that provably exist, so
its `out[tid]` is modeled with a defaulted lookup. -/
def reconcile_mru (tabs : List TabInfo) (last_used : Int → Option ℚ) (now : ℚ) :
    List TabInfo × PyDict ℚ :=
  let base_order := tabs.map (fun t => t.id)
  let base_rank := buildRank base_order
  let by_id := buildById tabs
  if tabs.any (fun t => t.last_focused.isSome) then
    let out0 := tabs.foldl (fun d t => pdSet d t.id (t.last_focused.getD 0)) []
    let out :=
      match activeTabId tabs with
      | some a => pdSet out0 a (max (pdGetD out0 a 0) now)
      | none => out0
    let ordered := List.insertionSort (mruLe base_rank) out
    (ordered.filterMap (fun kv => pdGet by_id kv.1),
     base_order.foldl (fun d tid => pdSet d tid (pdGetD out tid 0)) [])
  else
    let out0 := base_order.foldl (reconcileStep last_used) []
    let out :=
      match activeTabId tabs with
      | some a => pdSet out0 a (max (pdGetD out0 a 0) now)
      | none => out0
    let ordered := List.insertionSort (mruLe base_rank) out
    (ordered.filterMap (fun kv => pdGet by_id kv.1), out)

/-- Embedding of `RawSwitcher._update_mru` (src/tab_switcher.py lines
802-812): committed tab first, then the session's starting tab when present
and different, then the prior MRU order with both removed; also rebuilds the
persisted score map `{tid: now - idx * 0.001}`. -/
def update_mru (mru_order : List Int) (original_tab_id : Option Int) (tab_id : Int)
    (now : ℚ) : List Int × PyDict ℚ :=
  let base := mru_order.filter (fun tid => decide (¬ (tid = tab_id ∨ some tid = original_tab_id)))
  let new_order :=
    tab_id :: (match original_tab_id with
      | some o => if o ≠ tab_id then o :: base else base
      | none => base)
  (new_order, new_order.enum.map (fun p => (p.2, now - (p.1 : ℚ) * (1 / 1000))))

theorem activeTabId_mem {tabs : List TabInfo} {a : Int} (h : activeTabId tabs = some a) :
    a ∈ tabs.map (fun t => t.id) := by
  unfold activeTabId at h
  cases hf : tabs.find? (fun t => t.is_active) with
  | some t =>
    rw [hf] at h
    obtain rfl : t.id = a := by simpa using h
    exact List.mem_map_of_mem _ (List.mem_of_find?_eq_some hf)
  | none =>
    rw [hf] at h
    cases tabs with
    | nil => simp at h
    | cons t ts =>
      obtain rfl : t.id = a := by simpa using h
      exact List.mem_map_of_mem _ (List.mem_cons_self t ts)

theorem activeTabId_isSome {t : TabInfo} {ts : List TabInfo} :
    (activeTabId (t :: ts)).isSome = true := by
  unfold activeTabId
  cases hf : (t :: ts).find? (fun t => t.is_active) <;> simp

theorem buildById_get {tabs : List TabInfo} (hnd : (tabs.map (fun t => t.id)).Nodup)
    {t : TabInfo} (ht : t ∈ tabs) : pdGet (buildById tabs) t.id = some t := by
  unfold buildById
  exact pdGet_foldl_set_mem (fun t => t.id) (fun t => t) tabs [] t ht hnd

theorem buildRank_get {ids : List Int} (hnd : ids.Nodup) {k : Int} (hk : k ∈ ids) :
    pdGet (buildRank ids) k = some (ids.indexOf k) := by
  unfold buildRank
  have hlt : ids.indexOf k < ids.length := List.indexOf_lt_length.mpr hk
  have hmem : ((ids.indexOf k, k) : Nat × Int) ∈ ids.enum := by
    rw [List.mem_enum_iff_get?]
    simp only
    rw [List.get?_eq_get hlt, List.indexOf_get hlt]
  have := pdGet_foldl_set_mem (fun p : Nat × Int => p.2) (fun p : Nat × Int => p.1)
    ids.enum [] (ids.indexOf k, k) hmem (by rw [show ids.enum.map (fun p : Nat × Int => p.2) = ids.enum.map Prod.snd from rfl, List.enum_map_snd]; exact hnd)
  simpa using this

theorem filterMap_map_eq {α β γ : Type} (f : α → Option β) (g : β → γ) (h : α → γ) :
    ∀ l : List α, (∀ x ∈ l, ∃ y, f x = some y ∧ g y = h x) →
    (l.filterMap f).map g = l.map h := by
  intro l
  induction l with
  | nil => intro _; rfl
  | cons x rest ih =>
    intro hx
    obtain ⟨y, hy, hgy⟩ := hx x (List.mem_cons_self x rest)
    simp only [List.filterMap_cons, hy, List.map_cons, hgy]
    rw [ih (fun a ha => hx a (List.mem_cons_of_mem x ha))]

/-- Score of a tab as described by the spec sentences behind C4 (used only to
state the claim; the executable behavior is `reconcile_mru`): the native
last-focused timestamp (default 0) when any tab carries one, else the
persisted score (default 0), with the active tab forced to max(score, now). -/
def mruScoreSpec (tabs : List TabInfo) (lu : Int → Option ℚ) (now : ℚ) (t : TabInfo) : ℚ :=
  let base :=
    if tabs.any (fun t2 => t2.last_focused.isSome) then t.last_focused.getD 0
    else (lu t.id).getD 0
  if activeTabId tabs = some t.id then max base now else base

theorem pdGetD_of_get {β : Type} {d : PyDict β} {k : Int} {v dflt : β}
    (h : pdGet d k = some v) : pdGetD d k dflt = v := by
  simp [pdGetD, h]

theorem forced_get (tabs : List TabInfo) (out0 : PyDict ℚ) (now : ℚ)
    (base : TabInfo → ℚ)
    (hkeys0 : pdKeys out0 = tabs.map (fun t => t.id))
    (hget0 : ∀ t ∈ tabs, pdGet out0 t.id = some (base t)) :
    pdKeys (match activeTabId tabs with
      | some a => pdSet out0 a (max (pdGetD out0 a 0) now)
      | none => out0) = tabs.map (fun t => t.id) ∧
    ∀ t ∈ tabs, pdGet (match activeTabId tabs with
      | some a => pdSet out0 a (max (pdGetD out0 a 0) now)
      | none => out0) t.id =
        some (if activeTabId tabs = some t.id then max (base t) now else base t) := by
  cases hact : activeTabId tabs with
  | none =>
    refine ⟨hkeys0, ?_⟩
    intro t ht
    cases tabs with
    | nil => simp at ht
    | cons t0 ts =>
      have := @activeTabId_isSome t0 ts
      rw [hact] at this
      simp at this
  | some a =>
    have hamem : a ∈ tabs.map (fun t => t.id) := activeTabId_mem hact
    constructor
    · rw [pdKeys_set_mem _ _ _ (hkeys0 ▸ hamem)]
      exact hkeys0
    · intro t ht
      by_cases hta : t.id = a
      · subst hta
        rw [pdGet_set_self, if_pos rfl]
        have : pdGetD out0 t.id 0 = base t := by
          rw [pdGetD, hget0 t ht, Option.getD_some]
        rw [this]
      · rw [pdGet_set_ne _ _ hta, hget0 t ht,
          if_neg (fun he => hta (Option.some_inj.mp he.symm))]

theorem reconcile_sort_spec (tabs : List TabInfo) (out : PyDict ℚ)
    (hnd : (tabs.map (fun t => t.id)).Nodup)
    (hkeys : pdKeys out = tabs.map (fun t => t.id))
    (sc : TabInfo → ℚ)
    (hget : ∀ t ∈ tabs, pdGet out t.id = some (sc t)) :
    (((List.insertionSort (mruLe (buildRank (tabs.map (fun t => t.id)))) out).filterMap
        (fun kv => pdGet (buildById tabs) kv.1)).map (fun t => t.id)).Perm
      (tabs.map (fun t => t.id)) ∧
    ((List.insertionSort (mruLe (buildRank (tabs.map (fun t => t.id)))) out).filterMap
        (fun kv => pdGet (buildById tabs) kv.1)).Pairwise (fun t1 t2 =>
      sc t2 < sc t1 ∨ (sc t1 = sc t2 ∧
        (tabs.map (fun t => t.id)).indexOf t1.id < (tabs.map (fun t => t.id)).indexOf t2.id)) := by
  have hperm : (List.insertionSort (mruLe (buildRank (tabs.map (fun t => t.id)))) out).Perm out :=
    List.perm_insertionSort _ _
  have hndout : (pdKeys out).Nodup := by rw [hkeys]; exact hnd
  have hmem_char : ∀ kv ∈ List.insertionSort (mruLe (buildRank (tabs.map (fun t => t.id)))) out,
      ∃ t, t ∈ tabs ∧ t.id = kv.1 ∧ kv.2 = sc t ∧
        pdGet (buildById tabs) kv.1 = some t := by
    intro kv hkv
    have hkvout : kv ∈ out := hperm.mem_iff.mp hkv
    have hk1 : kv.1 ∈ tabs.map (fun t => t.id) := by
      rw [← hkeys]
      exact List.mem_map_of_mem Prod.fst hkvout
    obtain ⟨t, ht, htid⟩ := List.mem_map.mp hk1
    have h1 : pdGet out kv.1 = some kv.2 := pdGet_of_mem_nodup out kv hkvout hndout
    have h2 : pdGet out t.id = some (sc t) := hget t ht
    rw [htid] at h2
    have hv : kv.2 = sc t := by
      rw [h1] at h2
      exact Option.some_inj.mp h2
    exact ⟨t, ht, htid, hv, htid ▸ buildById_get hnd ht⟩
  constructor
  · have hres : (((List.insertionSort (mruLe (buildRank (tabs.map (fun t => t.id)))) out).filterMap
        (fun kv => pdGet (buildById tabs) kv.1)).map (fun t => t.id))
        = (List.insertionSort (mruLe (buildRank (tabs.map (fun t => t.id)))) out).map Prod.fst := by
      apply filterMap_map_eq
      intro kv hkv
      obtain ⟨t, ht, htid, _, hbid⟩ := hmem_char kv hkv
      exact ⟨t, hbid, htid⟩
    rw [hres]
    have hp2 := hperm.map Prod.fst
    rw [show out.map Prod.fst = pdKeys out from rfl, hkeys] at hp2
    exact hp2
  · have hsorted : List.Sorted (mruLe (buildRank (tabs.map (fun t => t.id))))
        (List.insertionSort (mruLe (buildRank (tabs.map (fun t => t.id)))) out) :=
      List.sorted_insertionSort _ _
    have hpm := hperm.map Prod.fst
    have hout_nd : (out.map Prod.fst).Nodup := by
      rw [show out.map Prod.fst = pdKeys out from rfl, hkeys]
      exact hnd
    have hndord := hpm.nodup_iff.mpr hout_nd
    have hne : (List.insertionSort (mruLe (buildRank (tabs.map (fun t => t.id)))) out).Pairwise
        (fun kv1 kv2 => kv1.1 ≠ kv2.1) := List.pairwise_map.mp hndord
    have hcomb := List.Pairwise.and hsorted hne
    rw [List.pairwise_filterMap]
    refine hcomb.imp_of_mem ?_
    intro kv1 kv2 h1 h2 hR t1 hb1 t2 hb2
    obtain ⟨u1, hu1, hid1, hv1, hb1c⟩ := hmem_char kv1 h1
    obtain ⟨u2, hu2, hid2, hv2, hb2c⟩ := hmem_char kv2 h2
    rw [hb1c] at hb1
    rw [hb2c] at hb2
    obtain rfl : u1 = t1 := Option.some_inj.mp hb1
    obtain rfl : u2 = t2 := Option.some_inj.mp hb2
    have hk1 : kv1.1 ∈ tabs.map (fun t => t.id) := hid1 ▸ List.mem_map_of_mem _ hu1
    have hk2 : kv2.1 ∈ tabs.map (fun t => t.id) := hid2 ▸ List.mem_map_of_mem _ hu2
    rcases hR.1 with hlt | ⟨heq, hrk⟩
    · left
      rw [← hv1, ← hv2]
      exact hlt
    · right
      refine ⟨by rw [← hv1, ← hv2]; exact heq, ?_⟩
      have hr1 : pdGetD (buildRank (tabs.map (fun t => t.id))) kv1.1 (10 ^ 9)
          = (tabs.map (fun t => t.id)).indexOf kv1.1 := by
        rw [pdGetD, buildRank_get hnd hk1, Option.getD_some]
      have hr2 : pdGetD (buildRank (tabs.map (fun t => t.id))) kv2.1 (10 ^ 9)
          = (tabs.map (fun t => t.id)).indexOf kv2.1 := by
        rw [pdGetD, buildRank_get hnd hk2, Option.getD_some]
      rw [hr1, hr2] at hrk
      have hne12 : (tabs.map (fun t => t.id)).indexOf kv1.1
          ≠ (tabs.map (fun t => t.id)).indexOf kv2.1 :=
        fun he => hR.2 ((List.indexOf_inj hk1 hk2).mp he)
      rw [← hid1, ← hid2] at hrk hne12
      exact lt_of_le_of_ne hrk hne12

/-- Example tabs for the concrete C4 instance: ids 1, 2, 3, tab 3 active, no
native last-focused timestamps. -/
def mruExampleTabs : List TabInfo :=
  [⟨1, "one", 11, false, none⟩, ⟨2, "two", 12, false, none⟩, ⟨3, "three", 13, true, none⟩]

/-- Persisted scores {1: 10, 2: 5} for the concrete C4 instance. The map is
passed to the embedding by its lookup function, which a dict's iteration
order cannot influence, so the result holds regardless of iteration order. -/
def mruExampleLu : Int → Option ℚ :=
  fun tid => if tid = 1 then some 10 else if tid = 2 then some 5 else none

/-- C4: MRU reconciliation. If any tab carries a native last-focused
timestamp the persisted map is ignored and those timestamps are used (missing
ones default to 0); otherwise the persisted map is used with the same
default; in both cases the active tab's score is forced to max(existing,
now); the resulting tab order is a permutation of the input ordered
descending by score with ties broken by original position; and the concrete
instance tabs [1,2,3], scores {1:10, 2:5}, active 3, now 100 yields [3,1,2]
independently of map iteration order. -/
theorem reconcile_mru_spec (tabs : List TabInfo) (lu : Int → Option ℚ) (now : ℚ)
    (hnd : (tabs.map (fun t => t.id)).Nodup) :
    ((tabs.any (fun t => t.last_focused.isSome) = true) →
      ∀ lu2 : Int → Option ℚ, reconcile_mru tabs lu2 now = reconcile_mru tabs lu now) ∧
    (∀ t ∈ tabs,
      pdGet (reconcile_mru tabs lu now).2 t.id = some (mruScoreSpec tabs lu now t)) ∧
    ((reconcile_mru tabs lu now).1.map (fun t => t.id)).Perm (tabs.map (fun t => t.id)) ∧
    (reconcile_mru tabs lu now).1.Pairwise (fun t1 t2 =>
      mruScoreSpec tabs lu now t2 < mruScoreSpec tabs lu now t1 ∨
      (mruScoreSpec tabs lu now t1 = mruScoreSpec tabs lu now t2 ∧
        (tabs.map (fun t => t.id)).indexOf t1.id < (tabs.map (fun t => t.id)).indexOf t2.id)) ∧
    ((reconcile_mru mruExampleTabs mruExampleLu 100).1.map (fun t => t.id)) = [3, 1, 2] := by
  refine ⟨?_, ?_⟩
  · intro hany lu2
    simp only [reconcile_mru, if_pos hany]
  by_cases hb : tabs.any (fun t => t.last_focused.isSome) = true
  · have hkeys0 : pdKeys (tabs.foldl (fun d t => pdSet d t.id (t.last_focused.getD 0)) [])
        = tabs.map (fun t => t.id) := by
      have := pdKeys_foldl_set_fresh (fun t => t.id) (fun t => t.last_focused.getD 0)
        tabs [] (by intro a _ hm; simp [pdKeys] at hm) hnd
      simpa [pdKeys] using this
    have hget0 : ∀ t ∈ tabs,
        pdGet (tabs.foldl (fun d t => pdSet d t.id (t.last_focused.getD 0)) []) t.id
          = some (t.last_focused.getD 0) :=
      fun t ht => pdGet_foldl_set_mem _ _ tabs [] t ht hnd
    obtain ⟨hkeysF, hgetF⟩ := forced_get tabs _ now _ hkeys0 hget0
    have hsc : ∀ t ∈ tabs,
        (if activeTabId tabs = some t.id then max (t.last_focused.getD 0) now
          else t.last_focused.getD 0) = mruScoreSpec tabs lu now t := by
      intro t _
      unfold mruScoreSpec
      rw [if_pos hb]
    have hget2 : ∀ t ∈ tabs, pdGet (match activeTabId tabs with
        | some a => pdSet (tabs.foldl (fun d t => pdSet d t.id (t.last_focused.getD 0)) []) a
            (max (pdGetD (tabs.foldl (fun d t => pdSet d t.id (t.last_focused.getD 0)) []) a 0) now)
        | none => tabs.foldl (fun d t => pdSet d t.id (t.last_focused.getD 0)) []) t.id
          = some (mruScoreSpec tabs lu now t) := by
      intro t ht
      rw [hgetF t ht]
      exact congrArg some (hsc t ht)
    obtain ⟨hperm, hpair⟩ := reconcile_sort_spec tabs _ hnd hkeysF
      (mruScoreSpec tabs lu now) hget2
    refine ⟨?_, ?_, ?_, by decide⟩
    · intro t ht
      simp only [reconcile_mru, if_pos hb]
      have hmemid : t.id ∈ tabs.map (fun t => t.id) := List.mem_map_of_mem _ ht
      have := pdGet_foldl_set_mem (fun tid : Int => tid)
        (fun tid => pdGetD (match activeTabId tabs with
          | some a => pdSet (tabs.foldl (fun d t => pdSet d t.id (t.last_focused.getD 0)) []) a
              (max (pdGetD (tabs.foldl (fun d t => pdSet d t.id (t.last_focused.getD 0)) []) a 0) now)
          | none => tabs.foldl (fun d t => pdSet d t.id (t.last_focused.getD 0)) []) tid 0)
        (tabs.map (fun t => t.id)) [] t.id hmemid (by simpa using hnd)
      rw [this]
      exact congrArg some (pdGetD_of_get (hget2 t ht))
    · simpa only [reconcile_mru, if_pos hb] using hperm
    · simpa only [reconcile_mru, if_pos hb] using hpair
  · have hkeys0 : pdKeys ((tabs.map (fun t => t.id)).foldl (reconcileStep lu) [])
        = tabs.map (fun t => t.id) := by
      have := pdKeys_foldl_reconcileStep_fresh lu (tabs.map (fun t => t.id)) []
        (by intro a _ hm; simp [pdKeys] at hm) hnd
      simpa [pdKeys] using this
    have hget0 : ∀ t ∈ tabs,
        pdGet ((tabs.map (fun t => t.id)).foldl (reconcileStep lu) []) t.id
          = some ((lu t.id).getD 0) :=
      fun t ht => pdGet_foldl_reconcileStep_mem lu _ [] t.id
        (List.mem_map_of_mem _ ht) hnd rfl
    obtain ⟨hkeysF, hgetF⟩ := forced_get tabs _ now _ hkeys0 hget0
    have hsc : ∀ t ∈ tabs,
        (if activeTabId tabs = some t.id then max ((lu t.id).getD 0) now
          else (lu t.id).getD 0) = mruScoreSpec tabs lu now t := by
      intro t _
      unfold mruScoreSpec
      rw [if_neg hb]
    have hget2 : ∀ t ∈ tabs, pdGet (match activeTabId tabs with
        | some a => pdSet ((tabs.map (fun t => t.id)).foldl (reconcileStep lu) []) a
            (max (pdGetD ((tabs.map (fun t => t.id)).foldl (reconcileStep lu) []) a 0) now)
        | none => (tabs.map (fun t => t.id)).foldl (reconcileStep lu) []) t.id
          = some (mruScoreSpec tabs lu now t) := by
      intro t ht
      rw [hgetF t ht]
      exact congrArg some (hsc t ht)
    obtain ⟨hperm, hpair⟩ := reconcile_sort_spec tabs _ hnd hkeysF
      (mruScoreSpec tabs lu now) hget2
    refine ⟨?_, ?_, ?_, by decide⟩
    · intro t ht
      simp only [reconcile_mru, if_neg hb]
      exact hget2 t ht
    · simpa only [reconcile_mru, if_neg hb] using hperm
    · simpa only [reconcile_mru, if_neg hb] using hpair

/-- Witness for C4 at the concrete instance of the claim (tabs [1,2,3],
persisted {1:10, 2:5}, active 3, now 100). -/
theorem reconcile_mru_spec_witness :
    ((reconcile_mru mruExampleTabs mruExampleLu 100).1.map (fun t => t.id)) = [3, 1, 2] :=
  (reconcile_mru_spec mruExampleTabs mruExampleLu 100 (by decide)).2.2.2.2

/-- C5: on commit the MRU order is rewritten so the committed tab is first,
the tab the session started from second when it differs, and the remaining
entries are exactly the prior order with those two removed (hence keep their
prior relative order: the remainder is a sublist of the prior order); in
particular committing tab 2 from starting tab 5 over prior order [5, 7, 2, 9]
persists the order [2, 5, 7, 9]. -/
theorem update_mru_spec (mru_order : List Int) (o tab_id : Int) (now : ℚ)
    (hne : o ≠ tab_id) :
    (update_mru mru_order (some o) tab_id now).1.head? = some tab_id ∧
    (update_mru mru_order (some o) tab_id now).1.get? 1 = some o ∧
    (update_mru mru_order (some o) tab_id now).1.drop 2 =
      mru_order.filter (fun tid => decide (¬ (tid = tab_id ∨ some tid = some o))) ∧
    ((update_mru mru_order (some o) tab_id now).1.drop 2).Sublist mru_order ∧
    (update_mru [5, 7, 2, 9] (some 5) 2 100).1 = [2, 5, 7, 9] := by
  have horder : (update_mru mru_order (some o) tab_id now).1 =
      tab_id :: o :: mru_order.filter (fun tid => decide (¬ (tid = tab_id ∨ some tid = some o))) := by
    simp only [update_mru]
    rw [if_pos hne]
  refine ⟨?_, ?_, ?_, ?_, by decide⟩
  · rw [horder]; rfl
  · rw [horder]; rfl
  · rw [horder]; rfl
  · rw [horder]
    exact List.filter_sublist mru_order

/-- Witness for C5 at the concrete instance of the claim: prior order
[5, 7, 2, 9], starting tab 5, committed tab 2. -/
theorem update_mru_spec_witness :
    (update_mru [5, 7, 2, 9] (some 5) 2 100).1 = [2, 5, 7, 9] :=
  (update_mru_spec [5, 7, 2, 9] 5 2 100 (by decide)).2.2.2.2

/-- C2 counterexample to the unrestricted claim: the syntactically valid
structured sequence ESC [ 1...1 u with a 63-digit key field exceeds the
decoder's 64-byte buffer cap, so the decoder returns bare Escape instead of
the encoded key code. -/
theorem read_key_csi_u_overlong_escape :
    (List.replicate 63 '1').map Char.toNat = List.replicate 63 49 ∧
    read_key (27 :: 91 :: (List.replicate 63 49 ++ [117])) = .ok (some ⟨ESC_CODE, 1, 1⟩) ∧
    digitsVal (List.replicate 63 '1') ≠ ESC_CODE := by
  refine ⟨by decide, rfl, by decide⟩

/-! Preview renderer (src/preview_gen.py). -/

/-- Truecolor triple (r, g, b). -/
abbrev RGB : Type := Int × Int × Int

/-- Parsed terminal cell from preview_gen.py: glyph (a string, possibly empty
for the continuation cell of a wide glyph), foreground, background. -/
abbrev Cell : Type := String × Option RGB × Option RGB

/-- The comparison `filled / max(total, 1) >= FILL_THRESHOLD` (0.2) from
preview_gen.py, written by exact cross-multiplication (see the header note on
floats). -/
def fillTest (filled total : Nat) : Bool := decide (5 * filled ≥ max total 1)

/-- The comparison `colored / max(filled, 1) >= COLOR_THRESHOLD` (0.35),
written by exact cross-multiplication. -/
def colorTest (colored filled : Nat) : Bool := decide (20 * colored ≥ 7 * max filled 1)

/-- The comparison `colored / max(total, 1) >= COLOR_TOTAL_THRESHOLD` where
the constant is 0.0, kept for fidelity (it is always true). -/
def colorTotalTest (colored total : Nat) : Bool := decide (1 * colored ≥ 0 * max total 1)

/-- Python `line.ljust(n)`. -/
def padLine (l : List Char) (n : Nat) : List Char := l ++ List.replicate (n - l.length) ' '

/-- The (filled, total) tallies of one sub-rectangle of `downsample_mask`. -/
def maskCounts (lines : List (List Char)) (max_len r0 r1 c0 c1 : Nat) : Nat × Nat :=
  ((List.range r1).drop r0).foldl (fun acc sr =>
    let line := padLine (lines.getD sr []) max_len
    ((List.range c1).drop c0).foldl (fun acc2 sc =>
      (acc2.1 + (if sc < line.length ∧ line.getD sc ' ' ≠ ' ' then 1 else 0),
       acc2.2 + 1)) acc) (0, 0)

/-- Embedding of `downsample_mask(lines, cols, rows)` from preview_gen.py
lines 16-46: proportional index mapping of a character grid onto a
cols-by-rows boolean fill mask. Python's `int(r * src_rows / rows)` on these
non-negative in-range values is exact floor division, embedded as `Nat`
division. -/
def downsample_mask (lines : List (List Char)) (cols rows : Int) : List (List Bool) :=
  if rows ≤ 0 ∨ cols ≤ 0 then []
  else if lines.isEmpty then List.replicate rows.toNat (List.replicate cols.toNat false)
  else
    let src_rows := lines.length
    let max_len := max (lines.foldr (fun l m => max l.length m) 0) 1
    (List.range rows.toNat).map (fun r =>
      let r0 := r * src_rows / rows.toNat
      let r1 := (r + 1) * src_rows / rows.toNat
      let r1 := if r1 ≤ r0 then min src_rows (r0 + 1) else r1
      (List.range cols.toNat).map (fun c =>
        let c0 := c * max_len / cols.toNat
        let c1 := (c + 1) * max_len / cols.toNat
        let c1 := if c1 ≤ c0 then min max_len (c0 + 1) else c1
        let cnt := maskCounts lines max_len r0 r1 c0 c1
        decide (cnt.1 > 0) && fillTest cnt.1 cnt.2))

/-- Per-color occurrence counts in first-seen order, as a Python dict of
counters builds them. -/
def bumpCount (l : List (RGB × Nat)) (k : RGB) : List (RGB × Nat) :=
  match l with
  | [] => [(k, 1)]
  | (k2, n) :: rest => if k2 = k then (k2, n + 1) :: rest else (k2, n) :: bumpCount rest k

/-- Python `max(items, key=lambda kv: kv[1])[0]`: the first key attaining the
maximal count (strict comparison keeps the earlier element on ties). -/
def pyMaxBySnd (l : List (RGB × Nat)) : Option RGB :=
  (l.foldl (fun best kv =>
    match best with
    | none => some kv
    | some b => if kv.2 > b.2 then some kv else some b) none).map Prod.fst

/-- Tallies of one sub-rectangle of `_downsample_color`. -/
structure ColorStats where
  filled : Nat
  total : Nat
  fg_counts : List (RGB × Nat)
  bg_counts : List (RGB × Nat)
  colored : Nat
  bg_filled : Nat
deriving DecidableEq

/-- The inner tally loop of `_downsample_color` (preview_gen.py lines
295-315) over rows [r0, r1) and columns [c0, c1). -/
def cellStats (lines : List (List Cell)) (r0 r1 c0 c1 : Nat) : ColorStats :=
  ((List.range r1).drop r0).foldl (fun st sr =>
    let line := lines.getD sr []
    ((List.range c1).drop c0).foldl (fun st2 sc =>
      let cell := if sc < line.length then line.getD sc ("", none, none) else (" ", none, none)
      let st3 := { st2 with total := st2.total + 1 }
      let st4 :=
        if cell.1 ≠ " " then
          { st3 with
            filled := st3.filled + 1,
            fg_counts := match cell.2.1 with
              | some fg => bumpCount st3.fg_counts fg
              | none => st3.fg_counts,
            colored := match cell.2.1 with
              | some _ => st3.colored + 1
              | none => st3.colored }
        else st3
      match cell.2.2 with
      | some bg => { st4 with bg_filled := st4.bg_filled + 1, bg_counts := bumpCount st4.bg_counts bg }
      | none => st4) st) ⟨0, 0, [], [], 0, 0⟩

/-- The per-cell decision of `_downsample_color` (preview_gen.py lines
316-325): the cell is filled when the fill fraction passes FILL_THRESHOLD or
any background color is present; a foreground color is attributed when some
foreground-colored cell exists, the colored fraction among filled cells
passes COLOR_THRESHOLD, and the always-true COLOR_TOTAL_THRESHOLD check
holds; the most frequent color wins. -/
def colorCell (st : ColorStats) : Bool × Option RGB × Option RGB :=
  if (st.filled > 0 ∧ fillTest st.filled st.total = true) ∨ st.bg_filled > 0 then
    let fg :=
      if st.fg_counts ≠ [] ∧ colorTest st.colored st.filled = true ∧
          colorTotalTest st.colored st.total = true then
        pyMaxBySnd st.fg_counts
      else none
    let bg := if st.bg_counts ≠ [] then pyMaxBySnd st.bg_counts else none
    (true, fg, bg)
  else (false, none, none)

/-- Embedding of `_downsample_color(lines, cols, rows)` from preview_gen.py
lines 270-331. -/
def downsample_color (lines : List (List Cell)) (cols rows : Int) :
    List (List (Bool × Option RGB × Option RGB)) :=
  if rows ≤ 0 ∨ cols ≤ 0 then []
  else if lines.isEmpty then
    List.replicate rows.toNat (List.replicate cols.toNat (false, none, none))
  else
    let src_rows := lines.length
    let max_len := max (lines.foldr (fun l m => max l.length m) 0) 1
    (List.range rows.toNat).map (fun r =>
      let r0 := r * src_rows / rows.toNat
      let r1 := (r + 1) * src_rows / rows.toNat
      let r1 := if r1 ≤ r0 then min src_rows (r0 + 1) else r1
      (List.range cols.toNat).map (fun c =>
        let c0 := c * max_len / cols.toNat
        let c1 := (c + 1) * max_len / cols.toNat
        let c1 := if c1 ≤ c0 then min max_len (c0 + 1) else c1
        colorCell (cellStats lines r0 r1 c0 c1)))

/-- The fixed 16-color palette of `_ansi_8_color` (preview_gen.py lines
49-69). -/
def ansi_8_color (code : Int) : Option RGB :=
  if code = 30 then some (0, 0, 0)
  else if code = 31 then some (205, 49, 49)
  else if code = 32 then some (13, 188, 121)
  else if code = 33 then some (229, 229, 16)
  else if code = 34 then some (36, 114, 200)
  else if code = 35 then some (188, 63, 188)
  else if code = 36 then some (17, 168, 205)
  else if code = 37 then some (229, 229, 229)
  else if code = 90 then some (102, 102, 102)
  else if code = 91 then some (241, 76, 76)
  else if code = 92 then some (35, 209, 139)
  else if code = 93 then some (245, 245, 67)
  else if code = 94 then some (59, 142, 234)
  else if code = 95 then some (214, 112, 214)
  else if code = 96 then some (41, 184, 219)
  else if code = 97 then some (229, 229, 229)
  else none

/-- Embedding of `_ansi_256_color` (preview_gen.py lines 72-88): basic
colors, the 6x6x6 cube with level 0 -> 0, n -> 55 + 40n, and the 24-step
grayscale ramp 8 + 10k. The cube arithmetic here is on a non-negative code,
so Python floor division is Nat division. -/
def ansi_256_color (code : Int) : Option RGB :=
  if code < 0 ∨ code > 255 then none
  else if code < 16 then
    (ansi_8_color (30 + code)).orElse (fun _ => ansi_8_color (90 + (code - 8)))
  else if code ≤ 231 then
    let c := (code - 16).toNat
    let r := (c / 36) % 6
    let g := (c / 6) % 6
    let b := c % 6
    let level := fun (n : Nat) => if n = 0 then (0 : Int) else 55 + 40 * n
    some (level r, level g, level b)
  else
    let gray : Int := 8 + (code - 232) * 10
    some (gray, gray, gray)

/-- Model of the `unicodedata` queries used by `_char_width`
(preview_gen.py lines 230-253): whether a character is combining, whether its
Unicode name contains POWERLINE, and whether its East-Asian width class is
W or F. All theorems below quantify over this oracle. -/
structure UnicodeData where
  isCombining : Char → Bool
  nameHasPowerline : Char → Bool
  isWideEastAsian : Char → Bool

/-- Embedding of `_is_private_use` (preview_gen.py lines 255-259). -/
def is_private_use (c : Char) : Bool :=
  (0xE000 ≤ c.toNat ∧ c.toNat ≤ 0xF8FF) ∨
  (0xF0000 ≤ c.toNat ∧ c.toNat ≤ 0xFFFFD) ∨
  (0x100000 ≤ c.toNat ∧ c.toNat ≤ 0x10FFFD)

/-- Embedding of `_char_width` (preview_gen.py lines 230-253); the
empty-string case cannot arise since cells feed single characters. -/
def char_width (ud : UnicodeData) (c : Char) : Nat :=
  if c = '\t' then 4
  else if ud.isCombining c then 0
  else if ud.nameHasPowerline c then 2
  else if is_private_use c then 2
  else if ud.isWideEastAsian c then 2
  else if c.toNat < 32 ∨ c.toNat = 127 then 0
  else 1

/-- SGR parameter tokens: split on semicolons, then on colons, dropping empty
fields (preview_gen.py lines 132-135). -/
def sgrParts (seq : List Char) : List (List Char) :=
  ((splitList ';' seq).filter (fun p => p ≠ [])).foldr
    (fun part acc => ((splitList ':' part).filter (fun p => p ≠ [])) ++ acc) []

/-- The SGR parameter loop of `parse_ansi_lines` (preview_gen.py lines
139-196) as the index-based loop of the source: 38/48 color forms test the
following tokens and bounds exactly as the Python index arithmetic does, and
invalid integers inside them are swallowed by the try/except, leaving the
color unchanged. The index strictly increases every iteration, so
`parts.length + 1` fuel can never run out. -/
def applySgrLoop (parts : List (List Char)) :
    Nat → Nat → (Option RGB × Option RGB) → (Option RGB × Option RGB)
  | 0, _, st => st
  | fuel + 1, j, (fg, bg) =>
    if j < parts.length then
      let code := parts.getD j []
      if code = ['0'] then applySgrLoop parts fuel (j + 1) (none, none)
      else if code = ['3', '9'] then applySgrLoop parts fuel (j + 1) (none, bg)
      else if code = ['4', '9'] then applySgrLoop parts fuel (j + 1) (fg, none)
      else if code = ['3', '8'] then
        if j + 1 < parts.length ∧ parts.getD (j + 1) [] = ['2'] ∧ j + 4 < parts.length then
          let st2 :=
            match pyInt (parts.getD (j + 2) []), pyInt (parts.getD (j + 3) []),
                pyInt (parts.getD (j + 4) []) with
            | some rv, some gv, some bv => (some ((rv, gv, bv) : RGB), bg)
            | _, _, _ => (fg, bg)
          applySgrLoop parts fuel (j + 5) st2
        else if j + 1 < parts.length ∧ parts.getD (j + 1) [] = ['5'] ∧ j + 2 < parts.length then
          let st2 :=
            match pyInt (parts.getD (j + 2) []) with
            | some idx => (ansi_256_color idx, bg)
            | none => (fg, bg)
          applySgrLoop parts fuel (j + 3) st2
        else applySgrLoop parts fuel (j + 1) (fg, bg)
      else if code = ['4', '8'] then
        if j + 1 < parts.length ∧ parts.getD (j + 1) [] = ['2'] ∧ j + 4 < parts.length then
          let st2 :=
            match pyInt (parts.getD (j + 2) []), pyInt (parts.getD (j + 3) []),
                pyInt (parts.getD (j + 4) []) with
            | some rv, some gv, some bv => (fg, some ((rv, gv, bv) : RGB))
            | _, _, _ => (fg, bg)
          applySgrLoop parts fuel (j + 5) st2
        else if j + 1 < parts.length ∧ parts.getD (j + 1) [] = ['5'] ∧ j + 2 < parts.length then
          let st2 :=
            match pyInt (parts.getD (j + 2) []) with
            | some idx => (fg, ansi_256_color idx)
            | none => (fg, bg)
          applySgrLoop parts fuel (j + 3) st2
        else applySgrLoop parts fuel (j + 1) (fg, bg)
      else if code.all isDigitChar ∧ code ≠ [] then
        match pyInt code with
        | some cval =>
          if (30 ≤ cval ∧ cval ≤ 37) ∨ (90 ≤ cval ∧ cval ≤ 97) then
            applySgrLoop parts fuel (j + 1) (ansi_8_color cval, bg)
          else if (40 ≤ cval ∧ cval ≤ 47) ∨ (100 ≤ cval ∧ cval ≤ 107) then
            applySgrLoop parts fuel (j + 1) (fg, ansi_8_color (cval - 10))
          else if 0 ≤ cval ∧ cval ≤ 7 then
            applySgrLoop parts fuel (j + 1) (ansi_8_color (30 + cval), bg)
          else applySgrLoop parts fuel (j + 1) (fg, bg)
        | none => applySgrLoop parts fuel (j + 1) (fg, bg)
      else applySgrLoop parts fuel (j + 1) (fg, bg)
    else (fg, bg)

/-- One CSI SGR sequence applied to the color state (preview_gen.py lines
125-139): an empty parameter string or an empty token list resets both
colors. -/
def applySgr (seq : List Char) (st : Option RGB × Option RGB) : Option RGB × Option RGB :=
  if seq = [] then (none, none)
  else
    let parts := sgrParts seq
    if parts = [] then (none, none) else applySgrLoop parts (parts.length + 1) 0 st

/-- Python `line.find(pat, start)`: least index at or after `start` where
`pat` occurs as a substring (None models -1). -/
def findFrom (l : List Char) (pat : List Char) (start : Nat) : Option Nat :=
  ((List.range (l.length + 1)).filter
    (fun i => decide (start ≤ i) && pat.isPrefixOf (l.drop i))).head?

/-- The character loop of `parse_ansi_lines` for one line (preview_gen.py
lines 98-226), as an index-based loop with explicit fuel. The index strictly
increases every iteration, so `line.length + 1` fuel can never run out. -/
def parseLineLoop (ud : UnicodeData) (line : List Char) :
    Nat → Nat → Nat → Option RGB → Option RGB → List Cell → List Cell
  | 0, _, _, _, _, cur => cur
  | fuel + 1, i, col, fg, bg, cur =>
    if i < line.length then
      let ch := line.getD i ' '
      if ch = '\x1b' ∧ i + 1 < line.length ∧ line.getD (i + 1) ' ' = ']' then
        let end_bel := findFrom line ['\x07'] (i + 2)
        let end_st := findFrom line ['\x1b', '\\'] (i + 2)
        match end_bel, end_st with
        | none, none => cur
        | none, some st => parseLineLoop ud line fuel (st + 2) col fg bg cur
        | some b2, none => parseLineLoop ud line fuel (b2 + 1) col fg bg cur
        | some b2, some st => parseLineLoop ud line fuel (min (b2 + 1) (st + 2)) col fg bg cur
      else if ch = '\x1b' ∧ i + 1 < line.length ∧ line.getD (i + 1) ' ' = '[' then
        match findFrom line ['m'] (i + 2) with
        | none => parseLineLoop ud line fuel (i + 1) col fg bg cur
        | some e =>
          let seq := (line.take e).drop (i + 2)
          let st := applySgr seq (fg, bg)
          parseLineLoop ud line fuel (e + 1) col st.1 st.2 cur
      else if ch = '\t' then
        let spaces := 8 - col % 8
        parseLineLoop ud line fuel (i + 1) (col + spaces) fg bg
          (cur ++ List.replicate spaces (" ", fg, bg))
      else if ch = '\x0d' then
        parseLineLoop ud line fuel (i + 1) 0 fg bg cur
      else
        let w := char_width ud ch
        if w = 0 then parseLineLoop ud line fuel (i + 1) col fg bg cur
        else
          let isPriv := is_private_use ch
          let fg2 := if isPriv then none else fg
          let glyph := if isPriv then " " else String.singleton ch
          let cur2 := cur ++ [(glyph, fg2, bg)]
          if w = 2 then
            parseLineLoop ud line fuel (i + 1) (col + 2) fg2 bg (cur2 ++ [("", fg2, bg)])
          else
            parseLineLoop ud line fuel (i + 1) (col + 1) fg2 bg cur2
    else cur

/-- One line of `parse_ansi_lines`: the color state resets at line start. -/
def parseLine (ud : UnicodeData) (line : List Char) : List Cell :=
  parseLineLoop ud line (line.length + 1) 0 0 none none []

/-- Embedding of `parse_ansi_lines(lines)` (preview_gen.py lines 93-227). -/
def parse_ansi_lines (ud : UnicodeData) (lines : List (List Char)) : List (List Cell) :=
  lines.map (parseLine ud)

/-- Python truthiness of `ch.strip()` for a cell glyph. -/
def cellGlyphHasContent (g : String) : Bool := pyStrip g.toList ≠ []

/-- Embedding of `_content_row_count_cells` (preview_gen.py lines 262-267):
index of the last row containing a non-whitespace glyph plus one, else
`min(len(lines), 1)`. -/
def content_row_count_cells (lines : List (List Cell)) : Nat :=
  match (List.range lines.length).reverse.find?
      (fun idx => (lines.getD idx []).any (fun c => cellGlyphHasContent c.1)) with
  | some idx => idx + 1
  | none => min lines.length 1

/-- Python truthiness of `line.strip()`. -/
def lineHasContent (l : List Char) : Bool := pyStrip l ≠ []

/-- The inline trailing-blank trim of the plain path of
`render_block_preview` (preview_gen.py lines 402-408): index of the last
non-blank line plus one, else `min(len(lines), 1)`. -/
def content_rows_plain (lines : List (List Char)) : Nat :=
  match (List.range lines.length).reverse.find?
      (fun idx => lineHasContent (lines.getD idx [])) with
  | some idx => idx + 1
  | none => min lines.length 1

/-- The color-mode whitelist COLOR_MODES of preview_gen.py. -/
def COLOR_MODES : List String := ["none", "fg", "bg", "both"]

/-- The `"\x1b[" in line` test of `render_block_preview`. -/
def hasAnsi (lines : List (List Char)) : Bool :=
  lines.any (fun line => decide (['\x1b', '['] <:+: line))

/-- Truecolor foreground escape built by `render_block_preview`. -/
def fgEscape (c : RGB) : String :=
  "\x1b[38;2;" ++ toString c.1 ++ ";" ++ toString c.2.1 ++ ";" ++ toString c.2.2 ++ "m"

/-- Truecolor background escape built by `render_block_preview`. -/
def bgEscape (c : RGB) : String :=
  "\x1b[48;2;" ++ toString c.1 ++ ";" ++ toString c.2.1 ++ ";" ++ toString c.2.2 ++ "m"

/-- Glyph and color selection for one output cell of the colored path of
`render_block_preview` (preview_gen.py lines 352-398), including the
substitution of a background color as foreground when no foreground is
attributable. -/
def renderColorCell (color_mode : String) (u lo : Bool × Option RGB × Option RGB) : String :=
  let swapIfNoFg : String × Option RGB × Option RGB → String × Option RGB × Option RGB :=
    fun p => if p.2.1 = none ∧ p.2.2 ≠ none then (p.1, p.2.2, none) else p
  let pick : String × Option RGB × Option RGB :=
    if u.1 ∧ lo.1 then swapIfNoFg ("█", u.2.1.orElse (fun _ => lo.2.1), u.2.2.orElse (fun _ => lo.2.2))
    else if u.1 then swapIfNoFg ("▀", u.2.1, u.2.2)
    else if lo.1 then swapIfNoFg ("▄", lo.2.1, lo.2.2)
    else (" ", none, none)
  if color_mode ≠ "none" then
    let seq :=
      (match pick.2.1 with
       | some c => if color_mode = "fg" ∨ color_mode = "both" then fgEscape c else ""
       | none => "") ++
      (match pick.2.2 with
       | some c => if color_mode = "bg" ∨ color_mode = "both" then bgEscape c else ""
       | none => "")
    if seq ≠ "" then seq ++ pick.1 ++ "\x1b[0m" else "\x1b[0m" ++ pick.1
  else "\x1b[0m" ++ pick.1

/-- Embedding of `render_block_preview(lines, cols, rows, color_mode)`
(preview_gen.py lines 337-427): two source rows per output row rendered with
half-block glyphs; the ANSI path parses lines into cells first. The
`unicodedata` oracle is a parameter (see `UnicodeData`). -/
def render_block_preview (ud : UnicodeData) (lines : List (List Char)) (cols rows : Int)
    (color_mode : String) : List String :=
  if rows ≤ 0 ∨ cols ≤ 0 then []
  else
    let mode := if COLOR_MODES.contains color_mode then color_mode else "both"
    if hasAnsi lines then
      let ansi_lines := parse_ansi_lines ud lines
      let content_rows := content_row_count_cells ansi_lines
      let effective_rows := min content_rows (rows.toNat * 2)
      let mask := downsample_color (ansi_lines.take content_rows) cols (effective_rows : Int)
      (List.range rows.toNat).map (fun r =>
        let upper := mask.getD (r * 2) (List.replicate cols.toNat (false, none, none))
        let lower := mask.getD (r * 2 + 1) (List.replicate cols.toNat (false, none, none))
        String.join ((List.range cols.toNat).map (fun c =>
          renderColorCell mode (upper.getD c (false, none, none)) (lower.getD c (false, none, none)))))
    else
      let content_rows := content_rows_plain lines
      let effective_rows := min content_rows (rows.toNat * 2)
      let mask := downsample_mask (lines.take content_rows) cols (effective_rows : Int)
      (List.range rows.toNat).map (fun r =>
        let upper := mask.getD (r * 2) (List.replicate cols.toNat false)
        let lower := mask.getD (r * 2 + 1) (List.replicate cols.toNat false)
        String.join ((List.range cols.toNat).map (fun c =>
          let u := upper.getD c false
          let lo := lower.getD c false
          if u ∧ lo then "█" else if u then "▀" else if lo then "▄" else " ")))

theorem foldlMax_spec :
    ∀ (l : List (RGB × Nat)) (best : Option (RGB × Nat)) (res : RGB × Nat),
    l.foldl (fun best kv =>
      match best with
      | none => some kv
      | some b => if kv.2 > b.2 then some kv else some b) best = some res →
    (best = some res ∨ res ∈ l) ∧ (∀ kv ∈ l, kv.2 ≤ res.2) ∧
      (∀ b, best = some b → b.2 ≤ res.2) := by
  intro l
  induction l with
  | nil =>
    intro best res h
    simp only [List.foldl_nil] at h
    exact ⟨Or.inl h, by simp, fun b hb => by rw [hb] at h; simp_all⟩
  | cons x rest ih =>
    intro best res h
    simp only [List.foldl_cons] at h
    obtain ⟨hm, hall, hb⟩ := ih _ res h
    have hnxt_le : ∀ n, (match best with
        | none => some x
        | some b => if x.2 > b.2 then some x else some b) = some n → x.2 ≤ n.2 := by
      intro n hn
      cases best with
      | none =>
        simp only at hn
        rw [← Option.some_inj.mp hn]
      | some b =>
        simp only at hn
        by_cases hcmp : x.2 > b.2
        · rw [if_pos hcmp] at hn
          rw [← Option.some_inj.mp hn]
        · rw [if_neg hcmp] at hn
          rw [← Option.some_inj.mp hn]
          omega
    have hbest_le : ∀ b, best = some b → b.2 ≤ res.2 := by
      intro b hbb
      subst hbb
      simp only at hm hall hb
      by_cases hcmp : x.2 > b.2
      · have := hb x (by simp [hcmp])
        omega
      · exact hb b (by simp [hcmp])
    refine ⟨?_, ?_, hbest_le⟩
    · rcases hm with hn | hmem
      · cases best with
        | none =>
          simp only at hn
          exact Or.inr (List.mem_cons.mpr (Or.inl (Option.some_inj.mp hn).symm))
        | some b =>
          simp only at hn
          by_cases hcmp : x.2 > b.2
          · rw [if_pos hcmp] at hn
            exact Or.inr (List.mem_cons.mpr (Or.inl (Option.some_inj.mp hn).symm))
          · rw [if_neg hcmp] at hn
            exact Or.inl (by rw [Option.some_inj.mp hn])
      · exact Or.inr (List.mem_cons_of_mem x hmem)
    · intro kv hkv
      rcases List.mem_cons.mp hkv with rfl | hkv2
      · cases best with
        | none => exact le_trans (hnxt_le kv rfl) (hb kv rfl)
        | some b =>
          by_cases hcmp : kv.2 > b.2
          · exact le_trans (hnxt_le kv (by simp [hcmp])) (hb kv (by simp [hcmp]))
          · have h1 : kv.2 ≤ b.2 := by omega
            exact le_trans h1 (hbest_le b rfl)
      · exact hall kv hkv2

theorem pyMaxBySnd_spec (l : List (RGB × Nat)) (k : RGB) (h : pyMaxBySnd l = some k) :
    ∃ n, (k, n) ∈ l ∧ ∀ kv ∈ l, kv.2 ≤ n := by
  unfold pyMaxBySnd at h
  obtain ⟨res, hres, hk⟩ := Option.map_eq_some'.mp h
  obtain ⟨hm, hall, _⟩ := foldlMax_spec l none res hres
  rcases hm with hbad | hmem
  · simp at hbad
  · refine ⟨res.2, ?_, hall⟩
    rw [← hk]
    simpa using hmem

/-- Sparse colored source row for the C7 counterexample: one red glyph, one
background-colored blank, eight plain blanks (fill fraction 1/10). -/
def cexSparseRow : List Cell :=
  [("x", some (255, 0, 0), none), (" ", none, some (0, 0, 255)),
   (" ", none, none), (" ", none, none), (" ", none, none), (" ", none, none),
   (" ", none, none), (" ", none, none), (" ", none, none), (" ", none, none)]

/-- C7 counterexample: in this sub-rectangle the fill fraction is 1/10, below
the 0.2 fill threshold, yet a foreground color is attributed: the presence of
a background color alone makes the cell count as filled, and the colored
fraction among filled cells (1/1) passes 0.35. So color attribution does not
require passing the 0.2 fill threshold. -/
theorem color_attribution_without_fill_threshold :
    downsample_color [cexSparseRow] 1 1 = [[(true, some (255, 0, 0), some (0, 0, 255))]] ∧
    (cellStats [cexSparseRow] 0 1 0 10).filled = 1 ∧
    (cellStats [cexSparseRow] 0 1 0 10).total = 10 ∧
    fillTest (cellStats [cexSparseRow] 0 1 0 10).filled
      (cellStats [cexSparseRow] 0 1 0 10).total = false := by
  exact ⟨rfl, rfl, rfl, rfl⟩

/-- Source row with 40 percent of its non-space cells in one color. -/
def row40 : List Cell :=
  List.replicate 4 (("x", some ((255, 0, 0) : RGB), none) : Cell) ++
    List.replicate 6 (("y", none, none) : Cell)

/-- Source row with 30 percent of its non-space cells in one color. -/
def row30 : List Cell :=
  List.replicate 3 (("x", some ((255, 0, 0) : RGB), none) : Cell) ++
    List.replicate 7 (("y", none, none) : Cell)

/-- C7 (amended): a foreground color is attributed to an output cell only
when the cell counts as filled (fill fraction at least 0.2 with a non-space
cell present, OR any background color present) AND the fraction of
foreground-colored cells among the non-space cells is at least 0.35; the
attributed color is one of maximal count. A row with 40 percent of its
non-space cells in one RGB attributes that color; at 30 percent no color is
attributed though the glyph still renders filled. -/
theorem color_attribution_spec :
    (∀ (st : ColorStats) (fgc : RGB), (colorCell st).2.1 = some fgc →
      ((0 < st.filled ∧ fillTest st.filled st.total = true) ∨ 0 < st.bg_filled) ∧
      colorTest st.colored st.filled = true ∧
      (∃ n, (fgc, n) ∈ st.fg_counts ∧ ∀ kv ∈ st.fg_counts, kv.2 ≤ n)) ∧
    (colorCell (cellStats [row40] 0 1 0 10)).2.1 = some (255, 0, 0) ∧
    (colorCell (cellStats [row30] 0 1 0 10)).2.1 = none ∧
    (colorCell (cellStats [row30] 0 1 0 10)).1 = true := by
  refine ⟨?_, rfl, rfl, rfl⟩
  intro st fgc h
  unfold colorCell at h
  by_cases hf : (st.filled > 0 ∧ fillTest st.filled st.total = true) ∨ st.bg_filled > 0
  · rw [if_pos hf] at h
    simp only at h
    by_cases hc : st.fg_counts ≠ [] ∧ colorTest st.colored st.filled = true ∧
        colorTotalTest st.colored st.total = true
    · rw [if_pos hc] at h
      exact ⟨hf, hc.2.1, pyMaxBySnd_spec _ _ h⟩
    · rw [if_neg hc] at h
      exact absurd h (by simp)
  · rw [if_neg hf] at h
    simp at h

/-- Witness for the amended C7 theorem at the 40 percent row: the attribution
conditions hold and the attributed color is of maximal count. -/
theorem color_attribution_spec_witness :
    ((0 < (cellStats [row40] 0 1 0 10).filled ∧
        fillTest (cellStats [row40] 0 1 0 10).filled (cellStats [row40] 0 1 0 10).total = true) ∨
      0 < (cellStats [row40] 0 1 0 10).bg_filled) ∧
    colorTest (cellStats [row40] 0 1 0 10).colored (cellStats [row40] 0 1 0 10).filled = true ∧
    (∃ n, (((255, 0, 0) : RGB), n) ∈ (cellStats [row40] 0 1 0 10).fg_counts ∧
      ∀ kv ∈ (cellStats [row40] 0 1 0 10).fg_counts, kv.2 ≤ n) :=
  color_attribution_spec.1 (cellStats [row40] 0 1 0 10) (255, 0, 0) (by decide)

theorem getD_mem_of_lt {α : Type} (l : List α) (j : Nat) (dflt : α)
    (hj : j < l.length) : l.getD j dflt ∈ l := by
  rw [List.getD_eq_get?, List.get?_eq_get hj, Option.getD_some]
  exact List.get_mem l j hj

theorem find?_range_reverse (p : Nat → Bool) :
    ∀ (n i : Nat), i < n → p i = true →
    (∀ j, j < n → i < j → p j = false) →
    ((List.range n).reverse.find? p) = some i := by
  intro n
  induction n with
  | zero => intro i hi; omega
  | succ m ih =>
    intro i hi hpi hafter
    rw [List.range_succ, List.reverse_append]
    simp only [List.reverse_singleton, List.singleton_append, List.find?_cons]
    by_cases him : i = m
    · subst him
      rw [hpi]
    · have hlt : i < m := by omega
      rw [hafter m (by omega) (by omega)]
      exact ih i hlt hpi (fun j hj hij => hafter j (by omega) hij)

theorem find?_range_reverse_none (p : Nat → Bool) (n : Nat)
    (h : ∀ j, j < n → p j = false) :
    ((List.range n).reverse.find? p) = none := by
  rw [List.find?_eq_none]
  intro x hx
  have : x < n := by
    rw [List.mem_reverse, List.mem_range] at hx
    exact hx
  simp [h x this]

/-- Concrete 24-line plain input for C8: 14 lines of text, then 10 blank
lines. -/
def exPlainLines : List (List Char) :=
  List.replicate 14 ['h', 'e', 'l', 'l', 'o'] ++ List.replicate 10 ([] : List Char)

/-- C8 counterexample: the claim says the content height is the last
non-blank row index plus 1 with a minimum of 1, but on the empty line list
the code computes min(len, 1) = 0, not 1 (for both the plain-path trim and
the cell-grid trim). -/
theorem content_trim_empty_counterexample :
    content_rows_plain ([] : List (List Char)) = 0 ∧
    ¬(1 ≤ content_rows_plain ([] : List (List Char))) ∧
    content_row_count_cells ([] : List (List Cell)) = 0 := by
  exact ⟨rfl, by decide, rfl⟩

/-- C8 (amended): the plain-path trim of render_block_preview yields index of
the last non-blank row plus 1; for a non-empty all-blank input it yields 1,
and for the empty input it yields 0; the downsample mask built by the plain
path has exactly min(contentRows, targetRows*2) rows; and on 24 lines of
plain ASCII whose last 10 are blank the content-row count is 14. -/
theorem render_content_trim_spec :
    (∀ (lines : List (List Char)) (i : Nat), i < lines.length →
      lineHasContent (lines.getD i []) = true →
      (∀ j, j < lines.length → i < j → lineHasContent (lines.getD j []) = false) →
      content_rows_plain lines = i + 1) ∧
    (∀ lines : List (List Char), lines ≠ [] →
      (∀ l ∈ lines, lineHasContent l = false) → content_rows_plain lines = 1) ∧
    (∀ (lines : List (List Char)) (cols rows : Int), 0 < cols →
      (downsample_mask (lines.take (content_rows_plain lines)) cols
        ((min (content_rows_plain lines) (rows.toNat * 2) : Nat) : Int)).length
        = min (content_rows_plain lines) (rows.toNat * 2)) ∧
    content_rows_plain exPlainLines = 14 := by
  refine ⟨?_, ?_, ?_, by decide⟩
  · intro lines i hi hpi hafter
    unfold content_rows_plain
    rw [find?_range_reverse _ lines.length i hi hpi hafter]
  · intro lines hne hall
    unfold content_rows_plain
    rw [find?_range_reverse_none]
    · cases lines with
      | nil => exact absurd rfl hne
      | cons a t => simp
    · intro j hj
      exact hall _ (getD_mem_of_lt lines j [] hj)
  · intro lines cols rows hc
    unfold downsample_mask
    by_cases hz : min (content_rows_plain lines) (rows.toNat * 2) = 0
    · rw [if_pos]
      · rw [hz]
        rfl
      · left
        omega
    · rw [if_neg]
      · split
        · simp only [List.length_replicate]
          omega
        · simp only [List.length_map, List.length_range]
          omega
      · push_neg
        constructor
        · omega
        · omega

/-- Witness for the amended C8 theorem at the concrete 24-line input whose
last non-blank line has index 13. -/
theorem render_content_trim_spec_witness :
    content_rows_plain exPlainLines = 13 + 1 :=
  render_content_trim_spec.1 exPlainLines 13 (by decide) (by decide) (by decide)

/-- C10: for every input line list, every positive target size and every
color mode, render_block_preview returns exactly targetRows rendered lines
(both on the ANSI-colored and on the plain path, whatever the unicodedata
oracle says); for a non-positive target dimension it returns the empty
list. -/
theorem render_block_preview_length (ud : UnicodeData) (lines : List (List Char))
    (cols rows : Int) (color_mode : String) :
    (0 < cols → 0 < rows →
      (render_block_preview ud lines cols rows color_mode).length = rows.toNat) ∧
    (cols ≤ 0 ∨ rows ≤ 0 → render_block_preview ud lines cols rows color_mode = []) := by
  constructor
  · intro hc hr
    unfold render_block_preview
    rw [if_neg (by omega)]
    split <;> split <;> simp only [List.length_map, List.length_range]
  · intro h
    unfold render_block_preview
    rw [if_pos (by omega)]

/-- Trivial unicodedata oracle for plain ASCII inputs: nothing is combining,
powerline or wide. -/
def udAscii : UnicodeData :=
  { isCombining := fun _ => false, nameHasPowerline := fun _ => false,
    isWideEastAsian := fun _ => false }

/-- Witness for C10 at a concrete input: 2 requested rows from one plain
line. -/
theorem render_block_preview_length_witness :
    (render_block_preview udAscii [['h', 'i']] 4 2 "both").length = (2 : Int).toNat :=
  (render_block_preview_length udAscii [['h', 'i']] 4 2 "both").1 (by decide) (by decide)

/-! Switcher event-dispatch steps (src/tab_switcher.py lines 268-400 and the
helpers they call). Terminal writes and persistence saves are I/O, not
switcher state; the `time.time()` calls within one dispatch are modeled as a
single instant `now`; the external text fetch is the parameter `fetch`
(window id to captured lines, `none` for a failure/exception). -/

/-- Constant PREVIEW_REFRESH_SECS = 0.5 from src/tab_switcher.py. -/
def PREVIEW_REFRESH_SECS : ℚ := 1 / 2

/-- The mutable RawSwitcher state touched by the event loop. -/
structure SwitchState where
  tabs : List TabInfo
  selected_index : Int
  saw_tab_event : Bool
  any_key_event : Bool
  ctrl_down : Bool
  ctrl_seen : Bool
  marker_seen : Bool
  last_input_time : ℚ
  last_draw : ℚ
  start_time : ℚ
  preview_cache : PyDict (List String)
  preview_cache_ts : PyDict ℚ
  preview_queue : List Int
  mru_order : List Int
  original_tab_id : Option Int
  last_used : PyDict ℚ
deriving DecidableEq

/-- Result of one iteration of the event loop: keep looping, or the loop
returned after commit or cancel. -/
inductive LoopAction where
  | cont
  | committedTab
  | cancelledTab
deriving DecidableEq

/-- Embedding of `RawSwitcher._current_tab_id` (src/tab_switcher.py
656-659); the selected index is kept in range by the modulo in `_move`, so
the lookup never misses for a nonempty tab list. -/
def current_tab_id (s : SwitchState) : Option Int :=
  if s.tabs = [] then none
  else (s.tabs.get? s.selected_index.toNat).map (fun t => t.id)

/-- Embedding of `RawSwitcher._preview_stale` (src/tab_switcher.py
760-763). -/
def preview_stale (now : ℚ) (s : SwitchState) (tab_id : Int) : Bool :=
  if pdContains s.preview_cache tab_id = false then true
  else decide (now - pdGetD s.preview_cache_ts tab_id 0 ≥ PREVIEW_REFRESH_SECS)

/-- Embedding of `RawSwitcher._fetch_preview` (src/tab_switcher.py 777-786):
a failed or empty capture becomes the blank 40x12 placeholder. -/
def fetch_preview (fetch : Int → Option (List String)) (t : TabInfo) : List String :=
  match fetch t.window_id with
  | some lines =>
    if lines = [] then List.replicate 12 (String.mk (List.replicate 40 ' ')) else lines
  | none => List.replicate 12 (String.mk (List.replicate 40 ' '))

/-- Body of the `_ensure_preview_cache` loop (src/tab_switcher.py 728-741)
for one neighborhood index. -/
def ensureStep (fetch : Int → Option (List String)) (now : ℚ)
    (st : SwitchState) (idx : Nat) : SwitchState :=
  match st.tabs.get? idx with
  | none => st
  | some tab =>
    if pdContains st.preview_cache tab.id then st
    else
      { st with
        preview_cache := pdSet st.preview_cache tab.id (fetch_preview fetch tab),
        preview_cache_ts := pdSet st.preview_cache_ts tab.id now }

/-- Embedding of `RawSwitcher._ensure_preview_cache` (src/tab_switcher.py
728-741). The Python set of the three neighborhood indices is iterated in
first-insertion order here; the cache contents do not depend on that order,
and both compared paths use the identical iteration. -/
def ensurePreviewCache (fetch : Int → Option (List String)) (now : ℚ)
    (s : SwitchState) : SwitchState :=
  if s.tabs = [] then s
  else
    let n : Int := s.tabs.length
    let indices := ([s.selected_index, (s.selected_index - 1) % n,
      (s.selected_index + 1) % n].map Int.toNat).dedup
    indices.foldl (ensureStep fetch now) s

/-- Embedding of `RawSwitcher._move` (src/tab_switcher.py 647-654): advance
the selection modulo the tab count, then ensure the neighborhood previews
are cached. Lean `%` on `Int` agrees with Python `%` here. -/
def moveStep (fetch : Int → Option (List String)) (now : ℚ) (delta : Int)
    (s : SwitchState) : SwitchState :=
  if s.tabs = [] then s
  else
    ensurePreviewCache fetch now
      { s with selected_index := (s.selected_index + delta) % (s.tabs.length : Int) }

/-- Queue effect of drawing one visible card (src/tab_switcher.py 436-441):
a stale preview not yet queued is appended to the refetch queue. -/
def drawQueueStep (now : ℚ) (st : SwitchState) (tab : TabInfo) : SwitchState :=
  if preview_stale now st tab.id ∧ ¬ st.preview_queue.contains tab.id then
    { st with preview_queue := st.preview_queue ++ [tab.id] }
  else st

/-- State effect of `RawSwitcher.draw` (src/tab_switcher.py 406-452): skip
when not forced within 16 ms of the last draw, else stamp the draw time and
queue stale previews of the visible cards. `_compute_layout` always reports
`max_cards = max(1, len(tabs))`, so `_visible_cards` returns every tab; the
layout numbers only shape the terminal writes, which are I/O. -/
def drawStep (now : ℚ) (force : Bool) (s : SwitchState) : SwitchState :=
  if ¬ force ∧ now - s.last_draw < 16 / 1000 then s
  else
    let s2 := { s with last_draw := now }
    if s2.tabs = [] then s2
    else s2.tabs.foldl (drawQueueStep now) s2

/-- Body of the `_schedule_preview_fetch` loop (src/tab_switcher.py 743-758)
for one target index. -/
def scheduleStep (now : ℚ) (st : SwitchState) (idx : Int) : SwitchState :=
  match st.tabs.get? idx.toNat with
  | none => st
  | some tab =>
    if ¬ preview_stale now st tab.id then st
    else if st.preview_queue.contains tab.id then st
    else { st with preview_queue := st.preview_queue ++ [tab.id] }

/-- Embedding of `RawSwitcher._schedule_preview_fetch` (src/tab_switcher.py
743-758). -/
def schedulePreviewFetch (now : ℚ) (s : SwitchState) : SwitchState :=
  if s.tabs = [] then s
  else
    let n : Int := s.tabs.length
    let targets := [s.selected_index, (s.selected_index - 1) % n, (s.selected_index + 1) % n]
    targets.foldl (scheduleStep now) s

/-- Embedding of `RawSwitcher._should_commit_on_ctrl_release`
(src/tab_switcher.py 531-536). -/
def should_commit_on_ctrl_release (now : ℚ) (s : SwitchState) : Bool :=
  if s.saw_tab_event then true else decide (now - s.start_time > 1 / 5)

/-- Embedding of `RawSwitcher.commit` (src/tab_switcher.py 457-464): resolve
the selected tab (falling back to cancel), rewrite the MRU order and score
map via `update_mru`, and request the host focus switch (I/O). -/
def commitStep (now : ℚ) (s : SwitchState) : SwitchState × LoopAction :=
  match current_tab_id s with
  | none => (s, .cancelledTab)
  | some tab_id =>
    let u := update_mru s.mru_order s.original_tab_id tab_id now
    ({ s with mru_order := u.1, last_used := u.2 }, .committedTab)

/-- Embedding of the command-channel branch of `RawSwitcher.run`
(src/tab_switcher.py 321-326): a "next"/"prev" datagram moves the selection
and forces a redraw; any other payload is ignored. -/
def commandStep (fetch : Int → Option (List String)) (now : ℚ) (cmd : String)
    (s : SwitchState) : SwitchState :=
  if cmd = "next" ∨ cmd = "prev" then
    drawStep now true (moveStep fetch now (if cmd = "prev" then -1 else 1) s)
  else s

/-- Embedding of the key-event dispatch of `RawSwitcher.run`
(src/tab_switcher.py 330-400): flag updates, marker and ctrl handling, the
Escape and q cancels, and the Tab/shift-Tab selection moves with forced
redraw and preview scheduling. -/
def keyEventStep (fetch : Int → Option (List String)) (now : ℚ) (ev : KeyEvent)
    (s : SwitchState) : SwitchState × LoopAction :=
  let s := { s with any_key_event := true, last_input_time := now }
  if ev.key_code = MARKER_KEY_CODE ∧ ev.event_type = 1 then
    ({ s with marker_seen := true, ctrl_down := true, ctrl_seen := true }, .cont)
  else if ev.key_code = MARKER_KEY_CODE ∧ ev.event_type = 3 then
    ({ s with ctrl_down := false }, .cont)
  else
    let s := if CTRL_KEY_CODES.contains ev.key_code ∧ ev.event_type = 1 then
        { s with ctrl_down := true, ctrl_seen := true } else s
    let s := if CTRL_KEY_CODES.contains ev.key_code ∧ ev.event_type = 3 then
        { s with ctrl_down := false } else s
    if CTRL_KEY_CODES.contains ev.key_code ∧ ev.event_type = 3 ∧
        should_commit_on_ctrl_release now s = true then
      commitStep now s
    else if ev.key_code = ESC_CODE ∧ ev.event_type = 1 then (s, .cancelledTab)
    else if ev.key_code = TAB_CODE ∧ (ev.event_type = 1 ∨ ev.event_type = 2) then
      let s := { s with saw_tab_event := true }
      let s := if ev.ctrl then { s with ctrl_down := true } else s
      let s := moveStep fetch now (if ev.shift then -1 else 1) s
      let s := drawStep now true s
      (schedulePreviewFetch now s, .cont)
    else if ev.key_code = -TAB_CODE then
      let s := { s with saw_tab_event := true }
      let s := moveStep fetch now (-1) s
      let s := drawStep now true s
      (schedulePreviewFetch now s, .cont)
    else if ev.key_code = 113 ∧ ev.event_type = 1 then (s, .cancelledTab)
    else (s, .cont)

/-- Concrete state for the C6 counterexample (an idle session with no
tabs listed). -/
def c6State : SwitchState :=
  { tabs := [], selected_index := 0, saw_tab_event := false, any_key_event := false,
    ctrl_down := false, ctrl_seen := false, marker_seen := false,
    last_input_time := 0, last_draw := 0, start_time := 0,
    preview_cache := [], preview_cache_ts := [], preview_queue := [],
    mru_order := [], original_tab_id := none, last_used := [] }

/-- C6 counterexample: processing the command-channel message "next" does
not leave the switcher in the same state as a no-modifier press of the cycle
key: the key path marks the cycle-seen flag (and the key-activity flags, and
schedules preview fetches) while the command path does not. -/
theorem command_not_equal_cycle_key :
    commandStep (fun _ => none) 100 "next" c6State ≠
      (keyEventStep (fun _ => none) 100 ⟨TAB_CODE, 1, 1⟩ c6State).1 := by
  intro h
  have h1 : (commandStep (fun _ => none) 100 "next" c6State).saw_tab_event = false := rfl
  have h2 : ((keyEventStep (fun _ => none) 100 ⟨TAB_CODE, 1, 1⟩ c6State).1).saw_tab_event
      = true := rfl
  rw [h] at h1
  rw [h1] at h2
  exact Bool.false_ne_true h2

theorem foldl_state_preserve {α : Type} {β : Type} (g : SwitchState → α → SwitchState)
    (f : SwitchState → β) (hg : ∀ st x, f (g st x) = f st) :
    ∀ (l : List α) (st : SwitchState), f (l.foldl g st) = f st := by
  intro l
  induction l with
  | nil => intro st; rfl
  | cons x rest ih =>
    intro st
    rw [List.foldl_cons, ih, hg]

theorem foldl_state_commute {α : Type} (g : SwitchState → α → SwitchState)
    (u : SwitchState → SwitchState) (hg : ∀ st x, g (u st) x = u (g st x)) :
    ∀ (l : List α) (st : SwitchState), l.foldl g (u st) = u (l.foldl g st) := by
  intro l
  induction l with
  | nil => intro st; rfl
  | cons x rest ih =>
    intro st
    rw [List.foldl_cons, hg, ih, List.foldl_cons]

/-- View of the switcher state fields untouched by the preview-scheduling
and draw-queue folds. -/
def coreView (st : SwitchState) :
    Int × List TabInfo × PyDict (List String) × PyDict ℚ × Bool × ℚ :=
  (st.selected_index, st.tabs, st.preview_cache, st.preview_cache_ts,
   st.saw_tab_event, st.last_draw)

theorem scheduleStep_coreView (now : ℚ) :
    ∀ st idx, coreView (scheduleStep now st idx) = coreView st := by
  intro st idx
  unfold scheduleStep
  split
  · rfl
  · split
    · rfl
    · split
      · rfl
      · rfl

theorem schedule_coreView (now : ℚ) (s : SwitchState) :
    coreView (schedulePreviewFetch now s) = coreView s := by
  unfold schedulePreviewFetch
  split
  · rfl
  · exact foldl_state_preserve _ coreView (scheduleStep_coreView now) _ s

theorem drawQueueStep_coreView (now : ℚ) :
    ∀ st tab, coreView (drawQueueStep now st tab) = coreView st := by
  intro st tab
  unfold drawQueueStep
  split
  · rfl
  · rfl

/-- View of the fields preserved by a forced draw (everything in `coreView`
except the draw timestamp). -/
def dView (st : SwitchState) :
    Int × List TabInfo × PyDict (List String) × PyDict ℚ × Bool :=
  (st.selected_index, st.tabs, st.preview_cache, st.preview_cache_ts, st.saw_tab_event)

theorem drawStep_dView (now : ℚ) (s : SwitchState) :
    dView (drawStep now true s) = dView s := by
  unfold drawStep
  rw [if_neg (by simp)]
  dsimp only
  split
  · rfl
  · have h := foldl_state_preserve (drawQueueStep now) coreView
      (drawQueueStep_coreView now) ({ s with last_draw := now }).tabs { s with last_draw := now }
    have h2 := congrArg (fun v => (v.1, v.2.1, v.2.2.1, v.2.2.2.1, v.2.2.2.2.1)) h
    exact h2

theorem drawStep_last_draw (now : ℚ) (s : SwitchState) :
    (drawStep now true s).last_draw = now := by
  unfold drawStep
  rw [if_neg (by simp)]
  dsimp only
  split
  · rfl
  · exact foldl_state_preserve (drawQueueStep now) (fun st => st.last_draw)
      (fun st x => by unfold drawQueueStep; split <;> rfl) _ _

/-- The flag updates the key-event path applies before handling a cycle key:
any_key_event, last_input_time, saw_tab_event. -/
def flagSet (now : ℚ) (st : SwitchState) : SwitchState :=
  { st with any_key_event := true, last_input_time := now, saw_tab_event := true }

theorem ensureStep_flagSet (fetch : Int → Option (List String)) (now now2 : ℚ) :
    ∀ st idx, ensureStep fetch now (flagSet now2 st) idx
      = flagSet now2 (ensureStep fetch now st idx) := by
  intro st idx
  unfold ensureStep flagSet
  dsimp only
  split
  · rfl
  · split
    · rfl
    · rfl

theorem ensurePreviewCache_flagSet (fetch : Int → Option (List String)) (now now2 : ℚ)
    (s : SwitchState) :
    ensurePreviewCache fetch now (flagSet now2 s)
      = flagSet now2 (ensurePreviewCache fetch now s) := by
  unfold ensurePreviewCache flagSet
  dsimp only
  by_cases h : s.tabs = []
  · rw [if_pos h, if_pos h]
  · rw [if_neg h, if_neg h]
    exact foldl_state_commute _ (flagSet now2) (ensureStep_flagSet fetch now now2) _ s

theorem moveStep_flagSet (fetch : Int → Option (List String)) (now now2 : ℚ) (d : Int)
    (s : SwitchState) :
    moveStep fetch now d (flagSet now2 s) = flagSet now2 (moveStep fetch now d s) := by
  unfold moveStep
  by_cases h : s.tabs = []
  · rw [if_pos (show (flagSet now2 s).tabs = [] from h), if_pos h]
  · rw [if_neg (show ¬ (flagSet now2 s).tabs = [] from h), if_neg h]
    have heq : ({ flagSet now2 s with selected_index :=
        ((flagSet now2 s).selected_index + d) % ((flagSet now2 s).tabs.length : Int) } : SwitchState)
        = flagSet now2 { s with selected_index := (s.selected_index + d) % (s.tabs.length : Int) } := rfl
    rw [heq]
    exact ensurePreviewCache_flagSet fetch now now2 _

theorem drawQueueStep_flagSet (now now2 : ℚ) :
    ∀ st tab, drawQueueStep now (flagSet now2 st) tab
      = flagSet now2 (drawQueueStep now st tab) := by
  intro st tab
  unfold drawQueueStep
  rw [show preview_stale now (flagSet now2 st) tab.id = preview_stale now st tab.id from rfl,
    show (flagSet now2 st).preview_queue = st.preview_queue from rfl]
  by_cases h : preview_stale now st tab.id = true ∧ ¬ st.preview_queue.contains tab.id = true
  · rw [if_pos h, if_pos h]
    rfl
  · rw [if_neg h, if_neg h]

theorem drawStep_forced (now : ℚ) (t : SwitchState) :
    drawStep now true t =
      (if ({ t with last_draw := now } : SwitchState).tabs = []
        then ({ t with last_draw := now } : SwitchState)
        else ({ t with last_draw := now } : SwitchState).tabs.foldl (drawQueueStep now)
          { t with last_draw := now }) := by
  unfold drawStep
  rw [if_neg (show ¬ (¬ true = true ∧ now - t.last_draw < 16 / 1000) from by simp)]

theorem drawStep_flagSet (now now2 : ℚ) (s : SwitchState) :
    drawStep now true (flagSet now2 s) = flagSet now2 (drawStep now true s) := by
  rw [drawStep_forced, drawStep_forced]
  rw [show ({ flagSet now2 s with last_draw := now } : SwitchState)
      = flagSet now2 { s with last_draw := now } from rfl]
  rw [show (flagSet now2 ({ s with last_draw := now } : SwitchState)).tabs
      = ({ s with last_draw := now } : SwitchState).tabs from rfl]
  by_cases h : ({ s with last_draw := now } : SwitchState).tabs = []
  · rw [if_pos h, if_pos h]
  · rw [if_neg h, if_neg h]
    exact foldl_state_commute _ (flagSet now2) (drawQueueStep_flagSet now now2) _ _

theorem scheduleStep_flagSet (now now2 : ℚ) :
    ∀ st idx, scheduleStep now (flagSet now2 st) idx
      = flagSet now2 (scheduleStep now st idx) := by
  intro st idx
  unfold scheduleStep
  rw [show (flagSet now2 st).tabs = st.tabs from rfl]
  cases hg : st.tabs.get? idx.toNat with
  | none => rfl
  | some tab =>
    simp only [hg]
    rw [show preview_stale now (flagSet now2 st) tab.id = preview_stale now st tab.id from rfl,
      show (flagSet now2 st).preview_queue = st.preview_queue from rfl]
    by_cases h1 : preview_stale now st tab.id = true
    · rw [if_neg (not_not_intro h1), if_neg (not_not_intro h1)]
      by_cases h2 : st.preview_queue.contains tab.id = true
      · rw [if_pos h2, if_pos h2]
      · rw [if_neg h2, if_neg h2]
        rfl
    · rw [if_pos h1, if_pos h1]

theorem schedulePreviewFetch_flagSet (now now2 : ℚ) (s : SwitchState) :
    schedulePreviewFetch now (flagSet now2 s)
      = flagSet now2 (schedulePreviewFetch now s) := by
  unfold schedulePreviewFetch flagSet
  dsimp only
  by_cases h : s.tabs = []
  · rw [if_pos h, if_pos h]
  · rw [if_neg h, if_neg h]
    exact foldl_state_commute _ (flagSet now2) (scheduleStep_flagSet now now2) _ s

/-- View of the key-activity flags the key-event path sets and the command
path leaves alone: saw_tab_event, any_key_event, last_input_time. -/
def fView (st : SwitchState) : Bool × Bool × ℚ :=
  (st.saw_tab_event, st.any_key_event, st.last_input_time)

theorem ensureStep_fView (fetch : Int → Option (List String)) (now : ℚ) :
    ∀ st idx, fView (ensureStep fetch now st idx) = fView st := by
  intro st idx
  unfold ensureStep
  split
  · rfl
  · split
    · rfl
    · rfl

theorem ensurePreviewCache_fView (fetch : Int → Option (List String)) (now : ℚ)
    (s : SwitchState) : fView (ensurePreviewCache fetch now s) = fView s := by
  unfold ensurePreviewCache
  split
  · rfl
  · exact foldl_state_preserve _ fView (ensureStep_fView fetch now) _ s

theorem moveStep_fView (fetch : Int → Option (List String)) (now : ℚ) (d : Int)
    (s : SwitchState) : fView (moveStep fetch now d s) = fView s := by
  unfold moveStep
  split
  · rfl
  · exact ensurePreviewCache_fView fetch now _

theorem drawQueueStep_fView (now : ℚ) :
    ∀ st tab, fView (drawQueueStep now st tab) = fView st := by
  intro st tab
  unfold drawQueueStep
  split
  · rfl
  · rfl

theorem drawStep_fView (now : ℚ) (s : SwitchState) :
    fView (drawStep now true s) = fView s := by
  rw [drawStep_forced]
  split
  · rfl
  · exact foldl_state_preserve _ fView (drawQueueStep_fView now) _ _

theorem commandStep_next (fetch : Int → Option (List String)) (now : ℚ)
    (s : SwitchState) :
    commandStep fetch now "next" s = drawStep now true (moveStep fetch now 1 s) := rfl

theorem commandStep_prev (fetch : Int → Option (List String)) (now : ℚ)
    (s : SwitchState) :
    commandStep fetch now "prev" s = drawStep now true (moveStep fetch now (-1) s) := rfl

theorem keyEventStep_cycle_next (fetch : Int → Option (List String)) (now : ℚ)
    (s : SwitchState) :
    keyEventStep fetch now ⟨TAB_CODE, 1, 1⟩ s
      = (flagSet now (schedulePreviewFetch now
          (drawStep now true (moveStep fetch now 1 s))), .cont) := by
  have h1 : keyEventStep fetch now ⟨TAB_CODE, 1, 1⟩ s
      = (schedulePreviewFetch now
          (drawStep now true (moveStep fetch now 1 (flagSet now s))), .cont) := rfl
  rw [h1, moveStep_flagSet, drawStep_flagSet, schedulePreviewFetch_flagSet]

theorem keyEventStep_cycle_prev (fetch : Int → Option (List String)) (now : ℚ)
    (s : SwitchState) :
    keyEventStep fetch now ⟨TAB_CODE, 2, 1⟩ s
      = (flagSet now (schedulePreviewFetch now
          (drawStep now true (moveStep fetch now (-1) s))), .cont) := by
  have h1 : keyEventStep fetch now ⟨TAB_CODE, 2, 1⟩ s
      = (schedulePreviewFetch now
          (drawStep now true (moveStep fetch now (-1) (flagSet now s))), .cont) := rfl
  rw [h1, moveStep_flagSet, drawStep_flagSet, schedulePreviewFetch_flagSet]

/-- What the command channel does share with a cycle-key press, and what it
does not: same selection, tab list, preview cache and cache timestamps, same
draw timestamp, the key path continues the loop and sets the cycle-seen and
key-activity flags, while the command path leaves those flags untouched. -/
def cycleKeyAgrees (now : ℚ) (s : SwitchState)
    (kr : SwitchState × LoopAction) (cs : SwitchState) : Prop :=
  kr.2 = .cont ∧
  kr.1.selected_index = cs.selected_index ∧
  kr.1.tabs = cs.tabs ∧
  kr.1.preview_cache = cs.preview_cache ∧
  kr.1.preview_cache_ts = cs.preview_cache_ts ∧
  kr.1.last_draw = cs.last_draw ∧
  kr.1.saw_tab_event = true ∧
  kr.1.any_key_event = true ∧
  kr.1.last_input_time = now ∧
  cs.saw_tab_event = s.saw_tab_event ∧
  cs.any_key_event = s.any_key_event ∧
  cs.last_input_time = s.last_input_time

theorem cycleKeyAgrees_of (fetch : Int → Option (List String)) (now : ℚ)
    (s : SwitchState) (d : Int) (kr : SwitchState × LoopAction) (cs : SwitchState)
    (hcs : cs = drawStep now true (moveStep fetch now d s))
    (hk : kr = (flagSet now (schedulePreviewFetch now cs), .cont)) :
    cycleKeyAgrees now s kr cs := by
  subst hk hcs
  have hc := schedule_coreView now (drawStep now true (moveStep fetch now d s))
  have hf := (drawStep_fView now (moveStep fetch now d s)).trans
    (moveStep_fView fetch now d s)
  exact ⟨rfl, congrArg (fun v => v.1) hc, congrArg (fun v => v.2.1) hc,
    congrArg (fun v => v.2.2.1) hc, congrArg (fun v => v.2.2.2.1) hc,
    congrArg (fun v => v.2.2.2.2.2) hc, rfl, rfl, rfl,
    congrArg (fun v => v.1) hf, congrArg (fun v => v.2.1) hf,
    congrArg (fun v => v.2.2) hf⟩

/-- C6 (corrected): from any state, a "next" command datagram and a plain
Tab press (and a "prev" datagram and a shift-Tab press) produce the same
selected index, tab list, preview cache, cache timestamps and draw
timestamp, and the key path continues the loop — but only the key path sets
saw_tab_event, any_key_event and last_input_time (and schedules preview
fetches); the command path leaves those flags exactly as they were, so the
two channels are not equivalent as the spec claims. -/
theorem command_channel_matches_cycle_key (fetch : Int → Option (List String))
    (now : ℚ) (s : SwitchState) :
    cycleKeyAgrees now s (keyEventStep fetch now ⟨TAB_CODE, 1, 1⟩ s)
      (commandStep fetch now "next" s) ∧
    cycleKeyAgrees now s (keyEventStep fetch now ⟨TAB_CODE, 2, 1⟩ s)
      (commandStep fetch now "prev" s) := by
  constructor
  · refine cycleKeyAgrees_of fetch now s 1 _ _ (commandStep_next fetch now s) ?_
    rw [commandStep_next]
    exact keyEventStep_cycle_next fetch now s
  · refine cycleKeyAgrees_of fetch now s (-1) _ _ (commandStep_prev fetch now s) ?_
    rw [commandStep_prev]
    exact keyEventStep_cycle_prev fetch now s
